import Mathlib

/-!
Verification of the grading-result pipeline of the checker-api repository
(src/services/grader.js): JSON extraction and repair, result normalization
(rescaling, contradiction detection, clamping, totals) and the one-retry
grading orchestration.

The JavaScript code is embedded shallowly:
* JavaScript numbers are modelled by `JNum`: exact rationals plus the three
  special values NaN, Infinity and -Infinity.  Double-precision rounding is
  abstracted away (arithmetic is exact on rationals); the structural float
  behaviour that the pipeline actually depends on (NaN propagation, division
  by zero producing infinities, comparisons with NaN being false,
  `Math.round` half-up rounding) is modelled faithfully.
* JavaScript values are modelled by `JsVal` (numbers, strings, booleans,
  null, undefined, objects as ordered field lists, arrays).  Property access
  on null/undefined is a thrown TypeError, modelled with `Except Unit`.
  In-place mutation of objects is modelled by functional update; the code
  under analysis never lets aliasing escape a single pipeline run.
-/

/-- A JavaScript number: an exact rational or one of the special values. -/
inductive JNum where
  | fin (q : ℚ)
  | inf
  | ninf
  | nan
deriving DecidableEq, Repr

namespace JNum

/-- JS unary negation on numbers. -/
def neg : JNum → JNum
  | fin q => fin (-q)
  | inf => ninf
  | ninf => inf
  | nan => nan

/-- JS `+` on two numbers. -/
def add : JNum → JNum → JNum
  | nan, _ => nan
  | _, nan => nan
  | fin a, fin b => fin (a + b)
  | inf, ninf => nan
  | ninf, inf => nan
  | inf, _ => inf
  | _, inf => inf
  | ninf, _ => ninf
  | _, ninf => ninf

/-- JS `-` on two numbers. -/
def sub (a b : JNum) : JNum := add a (neg b)

/-- JS `*` on two numbers (`Infinity * 0 = NaN`). -/
def mul : JNum → JNum → JNum
  | nan, _ => nan
  | _, nan => nan
  | fin a, fin b => fin (a * b)
  | inf, inf => inf
  | inf, ninf => ninf
  | ninf, inf => ninf
  | ninf, ninf => inf
  | inf, fin q => if q > 0 then inf else if q < 0 then ninf else nan
  | fin q, inf => if q > 0 then inf else if q < 0 then ninf else nan
  | ninf, fin q => if q > 0 then ninf else if q < 0 then inf else nan
  | fin q, ninf => if q > 0 then ninf else if q < 0 then inf else nan

/-- JS `/` on two numbers (`x / 0` is a signed infinity, `0 / 0 = NaN`).
The sign of JavaScript negative zero is not tracked: a rational `0` divides
as positive zero. -/
def div : JNum → JNum → JNum
  | nan, _ => nan
  | _, nan => nan
  | fin a, fin b =>
      if b = 0 then (if a > 0 then inf else if a < 0 then ninf else nan)
      else fin (a / b)
  | fin _, inf => fin 0
  | fin _, ninf => fin 0
  | inf, fin q => if q < 0 then ninf else inf
  | ninf, fin q => if q < 0 then inf else ninf
  | inf, inf => nan
  | inf, ninf => nan
  | ninf, inf => nan
  | ninf, ninf => nan

/-- `Math.round`: half-up rounding toward positive infinity on finite
values; the special values are fixed points. -/
def round : JNum → JNum
  | fin q => fin ((⌊q + (1 : ℚ) / 2⌋ : ℤ) : ℚ)
  | inf => inf
  | ninf => ninf
  | nan => nan

/-- JS `<`: false whenever an operand is NaN. -/
def ltb : JNum → JNum → Bool
  | nan, _ => false
  | _, nan => false
  | fin a, fin b => decide (a < b)
  | fin _, inf => true
  | fin _, ninf => false
  | inf, _ => false
  | ninf, inf => true
  | ninf, fin _ => true
  | ninf, ninf => false

/-- JS `>`. -/
def gtb (a b : JNum) : Bool := ltb b a

/-- JS `>=`: false whenever an operand is NaN. -/
def geb : JNum → JNum → Bool
  | nan, _ => false
  | _, nan => false
  | fin a, fin b => decide (b ≤ a)
  | fin _, inf => false
  | fin _, ninf => true
  | inf, _ => true
  | ninf, ninf => true
  | ninf, _ => false

/-- JS `===` on numbers: `NaN === NaN` is false. -/
def eqb : JNum → JNum → Bool
  | nan, _ => false
  | _, nan => false
  | fin a, fin b => decide (a = b)
  | inf, inf => true
  | ninf, ninf => true
  | _, _ => false

/-- JS `!==` on numbers. -/
def neb (a b : JNum) : Bool := !(eqb a b)

/-- `Math.max` on two numbers: NaN-propagating. -/
def max2 : JNum → JNum → JNum
  | nan, _ => nan
  | _, nan => nan
  | a, b => if geb a b then a else b

/-- JS number truthiness: `0` and NaN are falsy. -/
def truthy : JNum → Bool
  | fin q => decide (q ≠ 0)
  | nan => false
  | _ => true

end JNum

/-- A JavaScript runtime value, as far as the grading pipeline needs it.
Objects are ordered association lists (JS objects preserve string-key
insertion order). -/
inductive JsVal where
  | num (n : JNum)
  | str (s : String)
  | bool (b : Bool)
  | null
  | undef
  | obj (fields : List (String × JsVal))
  | arr (elems : List JsVal)
deriving Repr

namespace JsVal

/-- Structural decidable equality for `JsVal` (used only by the
meta-level statements, not by the embedded code). -/
def beq : JsVal → JsVal → Bool
  | num a, num b => a == b
  | str a, str b => a == b
  | bool a, bool b => a == b
  | null, null => true
  | undef, undef => true
  | obj a, obj b => beqFields a b
  | arr a, arr b => beqList a b
  | _, _ => false
where
  beqFields : List (String × JsVal) → List (String × JsVal) → Bool
    | [], [] => true
    | (k, v) :: xs, (k2, v2) :: ys => k == k2 && beq v v2 && beqFields xs ys
    | _, _ => false
  beqList : List JsVal → List JsVal → Bool
    | [], [] => true
    | x :: xs, y :: ys => beq x y && beqList xs ys
    | _, _ => false

instance : BEq JsVal := ⟨beq⟩

/-- JS truthiness of a value. -/
def truthy : JsVal → Bool
  | num n => n.truthy
  | str s => s ≠ ""
  | bool b => b
  | null => false
  | undef => false
  | obj _ => true
  | arr _ => true

/-- Field lookup on the raw field list of an object: first match wins
(JS objects cannot hold a duplicate key, so this is exact). -/
def lookupField : List (String × JsVal) → String → Option JsVal
  | [], _ => none
  | (k, v) :: rest, key => if k = key then some v else lookupField rest key

/-- Set a field on the raw field list: overwrite the first occurrence in
place, append otherwise — exactly the JS assignment/update order. -/
def setFieldList : List (String × JsVal) → String → JsVal → List (String × JsVal)
  | [], key, v => [(key, v)]
  | (k, w) :: rest, key, v =>
      if k = key then (k, v) :: rest else (k, w) :: setFieldList rest key v

end JsVal

/-! ## String helpers shared by the embedded functions -/

/-- The whitespace class used by `trim` and by the regex class `\s` on the
inputs that occur here (ASCII whitespace plus NBSP; more exotic Unicode
space code points never appear in the analysed strings). -/
def isJsSpace (c : Char) : Bool :=
  c = ' ' || c = '\t' || c = '\n' || c = '\r' ||
  c = '\x0b' || c = '\x0c' || c = ' '

/-- `String.prototype.trim`. -/
def jsTrimL (cs : List Char) : List Char := cs.dropWhile isJsSpace

def jsTrim (cs : List Char) : List Char :=
  ((cs.dropWhile isJsSpace).reverse.dropWhile isJsSpace).reverse

/-- ASCII lower-casing, the only case folding the `/i` regex flag performs
on the ASCII-only pattern alternatives. -/
def toLowerAscii (c : Char) : Char :=
  if 'A' ≤ c ∧ c ≤ 'Z' then Char.ofNat (c.toNat + 32) else c

/-- The regex word-character class `\w` = `[A-Za-z0-9_]`. -/
def isWordChar (c : Char) : Bool :=
  ('a' ≤ c && c ≤ 'z') || ('A' ≤ c && c ≤ 'Z') || ('0' ≤ c && c ≤ '9') || c = '_'

/-- Does `pat` occur in `cs` starting at index `i` with a `\b` word
boundary on both sides?  (All pattern alternatives begin and end with a
word character, so `\b` means: the adjacent outside character, if any, is
not a word character.) -/
def wordMatchAt (cs pat : List Char) (i : Nat) : Bool :=
  ((cs.drop i).take pat.length == pat) &&
  (match cs.get? (i - 1) with
   | some c => i == 0 || !isWordChar c
   | none => true) &&
  (match cs.get? (i + pat.length) with
   | some c => !isWordChar c
   | none => true)

/-- `pat` occurs somewhere in `cs` with word boundaries. -/
def hasWordOccurrence (cs pat : List Char) : Bool :=
  (List.range (cs.length + 1)).any fun i => wordMatchAt cs pat i

/-! ## Contradiction detector pattern list (grader.js line 347) -/

/-- The alternatives of `DEFICIT_PATTERNS`
`/\b(but|however|...|lack of)\b/i`, lower-cased. -/
def DEFICIT_PATTERNS : List String :=
  ["but", "however", "missing", "incomplete", "lacking", "incorrect",
   "inaccuracies", "inaccuracy", "not fully", "not adequately", "did not",
   "doesn\x27t provide", "does not provide", "wasn\x27t", "weren\x27t",
   "failed to", "fell short", "weak", "poorly", "insufficient", "absent",
   "needs further", "needs more", "needs improvement", "remains largely",
   "lack of"]

/-- `DEFICIT_PATTERNS.test(feedback)`: some alternative occurs in the
feedback, case-insensitively, with `\b` boundaries on both sides. -/
def deficitTest (feedback : String) : Bool :=
  let cs := feedback.data.map toLowerAscii
  DEFICIT_PATTERNS.any fun p => hasWordOccurrence cs p.data

/-! ## JSON repair engine (grader.js `repairTruncatedJson`, lines 210-251) -/

/-- `str.replace(/,\s*$/, "")`: drop one trailing comma together with the
whitespace following it; if the string does not end in
comma-then-whitespace it is returned unchanged. -/
def stripTrailingComma (cs : List Char) : List Char :=
  let r := cs.reverse
  let ws := r.takeWhile isJsSpace
  match r.drop ws.length with
  | ',' :: rest => rest.reverse
  | _ => cs

/-- One step of the quote scan: the source counts a `"` as a toggle exactly
when it sits at index 0 or its immediately preceding character is not a
backslash (`i === 0 || str[i-1] !== chr 92`). -/
def quoteScanStep (st : Bool × Option Char) (c : Char) : Bool × Option Char :=
  let inString := st.1
  let prev := st.2
  (if c = '"' && (prev == none || prev != some '\\') then !inString else inString,
   some c)

/-- The first left-to-right scan of `repairTruncatedJson`: is the scanner
inside a string when the input ends? -/
def quoteScan (cs : List Char) : Bool :=
  (cs.foldl quoteScanStep (false, none)).1

/-- State of the second scan: in-string flag, running unmatched `{` and `[`
counts (both may go negative, hence `Int`), previous character. -/
structure BraceScanState where
  inStr : Bool
  openBraces : Int
  openBrackets : Int
  prev : Option Char
deriving Repr

def braceScanStep (st : BraceScanState) (c : Char) : BraceScanState :=
  if c = '"' && (st.prev == none || st.prev != some '\\') then
    { st with inStr := !st.inStr, prev := some c }
  else if st.inStr then
    { st with prev := some c }
  else
    { st with
      openBraces := st.openBraces + (if c = '{' then 1 else 0)
        - (if c = '}' then 1 else 0),
      openBrackets := st.openBrackets + (if c = '[' then 1 else 0)
        - (if c = ']' then 1 else 0),
      prev := some c }

def braceScan (cs : List Char) : BraceScanState :=
  cs.foldl braceScanStep ⟨false, 0, 0, none⟩

/-- `repairTruncatedJson` on a character list: trim; strip a trailing
comma; close an unclosed string; count unmatched braces/brackets outside
strings; strip a trailing comma again; append `]`s then `}`s. -/
def repairTruncatedJsonL (jsonStr : List Char) : List Char :=
  let s1 := jsTrim jsonStr
  let s2 := stripTrailingComma s1
  let s3 := if quoteScan s2 then s2 ++ ['"'] else s2
  let st := braceScan s3
  let s4 := stripTrailingComma s3
  let s5 := s4 ++ List.replicate (st.openBrackets.toNat) ']'
  s5 ++ List.replicate (st.openBraces.toNat) '}'

def repairTruncatedJson (jsonStr : String) : String :=
  ⟨repairTruncatedJsonL jsonStr.data⟩

/-! ## A model of `JSON.parse`

The parser implements the JSON grammar (ECMA-404) over `JsVal`: objects,
arrays, strings with escapes, numbers, `true`, `false`, `null`.  Numbers
are read as exact rationals (the double rounding JSON.parse performs is
abstracted away, see the header).  A failed parse is `none` — the model of
`JSON.parse` throwing. -/

def jsonWs (c : Char) : Bool := c = ' ' || c = '\t' || c = '\n' || c = '\r'

def skipJsonWs (cs : List Char) : List Char := cs.dropWhile jsonWs

def hexVal (c : Char) : Option Nat :=
  if '0' ≤ c ∧ c ≤ '9' then some (c.toNat - '0'.toNat)
  else if 'a' ≤ c ∧ c ≤ 'f' then some (c.toNat - 'a'.toNat + 10)
  else if 'A' ≤ c ∧ c ≤ 'F' then some (c.toNat - 'A'.toNat + 10)
  else none

/-- Parse the body of a JSON string (the opening quote already consumed).
Surrogate-pair recombination of `\uXXXX` escapes is not modelled (no
analysed input uses them). -/
def parseJsonString : Nat → List Char → Option (List Char × List Char)
  | 0, _ => none
  | _, [] => none
  | fuel + 1, c :: rest =>
    if c = '"' then some ([], rest)
    else if c = '\\' then
      match rest with
      | [] => none
      | e :: rest2 =>
        let esc : Option (Char × List Char) :=
          if e = '"' then some ('"', rest2)
          else if e = '\\' then some ('\\', rest2)
          else if e = '/' then some ('/', rest2)
          else if e = 'b' then some ('\x08', rest2)
          else if e = 'f' then some ('\x0c', rest2)
          else if e = 'n' then some ('\n', rest2)
          else if e = 'r' then some ('\r', rest2)
          else if e = 't' then some ('\t', rest2)
          else if e = 'u' then
            match rest2 with
            | a :: b :: c2 :: d :: rest3 =>
              match hexVal a, hexVal b, hexVal c2, hexVal d with
              | some ha, some hb, some hc, some hd =>
                  some (Char.ofNat (((ha * 16 + hb) * 16 + hc) * 16 + hd), rest3)
              | _, _, _, _ => none
            | _ => none
          else none
        match esc with
        | some (ch, rest2) =>
          match parseJsonString fuel rest2 with
          | some (s, rem) => some (ch :: s, rem)
          | none => none
        | none => none
    else if c.toNat < 0x20 then none
    else
      match parseJsonString fuel rest with
      | some (s, rem) => some (c :: s, rem)
      | none => none

def digitsToNat (ds : List Char) : Nat :=
  ds.foldl (fun acc c => acc * 10 + (c.toNat - '0'.toNat)) 0

def isDigit (c : Char) : Bool := '0' ≤ c && c ≤ '9'

/-- Parse a JSON number (leading-zero rules of JSON enforced).  Returns the
exact rational value. -/
def parseJsonNumber (cs : List Char) : Option (ℚ × List Char) :=
  let (neg, cs1) := match cs with
    | '-' :: rest => (true, rest)
    | _ => (false, cs)
  let intDigits := cs1.takeWhile isDigit
  let cs2 := cs1.drop intDigits.length
  if intDigits.isEmpty then none
  else if intDigits.length > 1 ∧ intDigits.headD '0' = '0' then none
  else
    let ipart : ℚ := (digitsToNat intDigits : ℚ)
    let (fpart, cs3) : ℚ × List Char :=
      match cs2 with
      | '.' :: rest =>
        let fd := rest.takeWhile isDigit
        if fd.isEmpty then ((0 : ℚ), cs2)
        else ((digitsToNat fd : ℚ) / ((10 : ℚ) ^ fd.length), rest.drop fd.length)
      | _ => ((0 : ℚ), cs2)
    let fracOk := match cs2 with
      | '.' :: rest => !(rest.takeWhile isDigit).isEmpty
      | _ => true
    if !fracOk then none
    else
      let (expOk, escale, cs4) : Bool × ℚ × List Char :=
        match cs3 with
        | e :: rest =>
          if e = 'e' ∨ e = 'E' then
            let (eneg, rest2) := match rest with
              | '+' :: r => (false, r)
              | '-' :: r => (true, r)
              | _ => (false, rest)
            let ed := rest2.takeWhile isDigit
            if ed.isEmpty then (false, (1 : ℚ), cs3)
            else
              let n := digitsToNat ed
              (true, if eneg then 1 / ((10 : ℚ) ^ n) else ((10 : ℚ) ^ n),
               rest2.drop ed.length)
          else (true, (1 : ℚ), cs3)
        | [] => (true, (1 : ℚ), cs3)
      if !expOk then none
      else
        let mag := (ipart + fpart) * escale
        some (if neg then -mag else mag, cs4)

/-- The three alternating jobs of the JSON value parser: parse a value,
parse the remaining members of an object (scanner just before a key), or
parse the remaining elements of an array (scanner just before a value).
A single fuel-indexed structural recursion keeps every step of the parser
kernel-reducible. -/
inductive ParseTask where
  | value (cs : List Char)
  | members (acc : List (String × JsVal)) (cs : List Char)
  | elems (acc : List JsVal) (cs : List Char)

/-- Run one parsing job.  Each recursive call consumes at least one input
character per two fuel units, so `fuel = length + 1` is complete.  A
duplicate object key overwrites the earlier value in place, exactly as
`JSON.parse` does. -/
def parseJsonRun : Nat → ParseTask → Option (JsVal × List Char)
  | 0, _ => none
  | fuel + 1, ParseTask.value cs =>
    (match skipJsonWs cs with
    | [] => none
    | c :: rest =>
      if c = '{' then
        match skipJsonWs rest with
        | '}' :: rem => some (JsVal.obj [], rem)
        | cs2 => parseJsonRun fuel (ParseTask.members [] cs2)
      else if c = '[' then
        match skipJsonWs rest with
        | ']' :: rem => some (JsVal.arr [], rem)
        | cs2 => parseJsonRun fuel (ParseTask.elems [] cs2)
      else if c = '"' then
        match parseJsonString (rest.length + 1) rest with
        | some (s, rem) => some (JsVal.str ⟨s⟩, rem)
        | none => none
      else if c = 't' then
        match rest with
        | 'r' :: 'u' :: 'e' :: rem => some (JsVal.bool true, rem)
        | _ => none
      else if c = 'f' then
        match rest with
        | 'a' :: 'l' :: 's' :: 'e' :: rem => some (JsVal.bool false, rem)
        | _ => none
      else if c = 'n' then
        match rest with
        | 'u' :: 'l' :: 'l' :: rem => some (JsVal.null, rem)
        | _ => none
      else
        match parseJsonNumber (c :: rest) with
        | some (q, rem) => some (JsVal.num (JNum.fin q), rem)
        | none => none)
  | fuel + 1, ParseTask.members acc cs =>
    (match cs with
    | '"' :: r =>
      match parseJsonString (r.length + 1) r with
      | some (key, r2) =>
        match skipJsonWs r2 with
        | ':' :: r3 =>
          match parseJsonRun fuel (ParseTask.value r3) with
          | some (v, r4) =>
            let acc2 := JsVal.setFieldList acc ⟨key⟩ v
            match skipJsonWs r4 with
            | ',' :: r5 => parseJsonRun fuel (ParseTask.members acc2 (skipJsonWs r5))
            | '}' :: rem => some (JsVal.obj acc2, rem)
            | _ => none
          | none => none
        | _ => none
      | none => none
    | _ => none)
  | fuel + 1, ParseTask.elems acc cs =>
    (match parseJsonRun fuel (ParseTask.value cs) with
    | some (v, r) =>
      match skipJsonWs r with
      | ',' :: r2 => parseJsonRun fuel (ParseTask.elems (acc ++ [v]) r2)
      | ']' :: rem => some (JsVal.arr (acc ++ [v]), rem)
      | _ => none
    | none => none)

def parseJsonValue (fuel : Nat) (cs : List Char) : Option (JsVal × List Char) :=
  parseJsonRun fuel (ParseTask.value cs)

/-- `JSON.parse`: a whole-string parse, `none` models a thrown
`SyntaxError`. -/
def jsonParse (s : String) : Option JsVal :=
  match parseJsonValue (s.length + 1) s.data with
  | some (v, rem) => if (skipJsonWs rem).isEmpty then some v else none
  | none => none

/-! ## JS value coercions

Only the coercions the grader actually exercises are needed: template
interpolation and `+` (string concatenation), relational comparison and
subtraction (ToNumber), strict (in)equality, truthiness, property reads.
Number-to-string conversion is exact for integers; for non-integral
rationals the double shortest-round-trip formatting is abstracted by the
raw rational printer (no analysed property inspects such a string). -/

def jnumToString : JNum → String
  | JNum.nan => "NaN"
  | JNum.inf => "Infinity"
  | JNum.ninf => "-Infinity"
  | JNum.fin q => if q.den = 1 then toString q.num else toString q

mutual

/-- JS ToString. -/
def jsToString : JsVal → String
  | JsVal.num n => jnumToString n
  | JsVal.str s => s
  | JsVal.bool b => if b then "true" else "false"
  | JsVal.null => "null"
  | JsVal.undef => "undefined"
  | JsVal.obj _ => "[object Object]"
  | JsVal.arr xs => String.intercalate "," (jsToStringElems xs)

/-- `Array.prototype.toString` renders null/undefined elements as empty. -/
def jsToStringElems : List JsVal → List String
  | [] => []
  | x :: xs =>
    (match x with
     | JsVal.null => ""
     | JsVal.undef => ""
     | y => jsToString y) :: jsToStringElems xs

end

/-- The decimal part of the `Number(string)` grammar: digits with optional
fraction and exponent, the whole remainder consumed.  (The hexadecimal,
octal and binary literal forms never occur in the analysed strings.) -/
def parseJsDecimal (cs : List Char) : Option ℚ :=
  let intDigits := cs.takeWhile isDigit
  let cs2 := cs.drop intDigits.length
  let (fracDigits, cs3) : List Char × List Char :=
    match cs2 with
    | '.' :: rest => (rest.takeWhile isDigit, rest.drop (rest.takeWhile isDigit).length)
    | _ => ([], cs2)
  if intDigits.isEmpty ∧ fracDigits.isEmpty then none
  else
    let mantissa : ℚ := (digitsToNat intDigits : ℚ) +
      (digitsToNat fracDigits : ℚ) / ((10 : ℚ) ^ fracDigits.length)
    match cs3 with
    | [] => some mantissa
    | e :: rest =>
      if e = 'e' ∨ e = 'E' then
        let (eneg, rest2) := match rest with
          | '+' :: r => (false, r)
          | '-' :: r => (true, r)
          | _ => (false, rest)
        let ed := rest2.takeWhile isDigit
        if ed.isEmpty ∨ !(rest2.drop ed.length).isEmpty then none
        else some (mantissa * (if eneg then 1 / ((10 : ℚ) ^ digitsToNat ed)
                               else (10 : ℚ) ^ digitsToNat ed))
      else none

/-- JS `Number(string)` / ToNumber on a string. -/
def jsStringToNumber (s : String) : JNum :=
  let cs := jsTrim s.data
  if cs.isEmpty then JNum.fin 0
  else
    let (neg, cs1) := match cs with
      | '+' :: r => (false, r)
      | '-' :: r => (true, r)
      | _ => (false, cs)
    if cs1 = "Infinity".data then (if neg then JNum.ninf else JNum.inf)
    else
      match parseJsDecimal cs1 with
      | some q => JNum.fin (if neg then -q else q)
      | none => JNum.nan

/-- ToPrimitive: objects and arrays convert through their default
`toString`. -/
def jsToPrimitive : JsVal → JsVal
  | JsVal.obj fs => JsVal.str (jsToString (JsVal.obj fs))
  | JsVal.arr xs => JsVal.str (jsToString (JsVal.arr xs))
  | v => v

/-- ToNumber on a primitive. -/
def jsPrimToNumber : JsVal → JNum
  | JsVal.num n => n
  | JsVal.str s => jsStringToNumber s
  | JsVal.bool b => if b then JNum.fin 1 else JNum.fin 0
  | JsVal.null => JNum.fin 0
  | JsVal.undef => JNum.nan
  | v => jsStringToNumber (jsToString v)

def jsToNumber (v : JsVal) : JNum := jsPrimToNumber (jsToPrimitive v)

/-- JS `+`: string concatenation if either primitive operand is a string,
numeric addition otherwise. -/
def jsPlus (a b : JsVal) : JsVal :=
  match jsToPrimitive a, jsToPrimitive b with
  | JsVal.str sa, pb => JsVal.str (sa ++ jsToString pb)
  | pa, JsVal.str sb => JsVal.str (jsToString pa ++ sb)
  | pa, pb => JsVal.num (JNum.add (jsPrimToNumber pa) (jsPrimToNumber pb))

/-- JS `-`: always numeric. -/
def jsMinus (a b : JsVal) : JsVal :=
  JsVal.num (JNum.sub (jsToNumber a) (jsToNumber b))

/-- Strict lexicographic order on code points (JS string `<`). -/
def lexLt : List Char → List Char → Bool
  | [], [] => false
  | [], _ :: _ => true
  | _ :: _, [] => false
  | a :: as, b :: bs => a < b || (a = b && lexLt as bs)

/-- JS `>=`: string comparison when both primitives are strings, numeric
comparison otherwise (NaN making it false). -/
def jsGe (a b : JsVal) : Bool :=
  match jsToPrimitive a, jsToPrimitive b with
  | JsVal.str sa, JsVal.str sb => !lexLt sa.data sb.data
  | pa, pb => JNum.geb (jsPrimToNumber pa) (jsPrimToNumber pb)

/-- JS `>`. -/
def jsGt (a b : JsVal) : Bool :=
  match jsToPrimitive a, jsToPrimitive b with
  | JsVal.str sa, JsVal.str sb => lexLt sb.data sa.data
  | pa, pb => JNum.gtb (jsPrimToNumber pa) (jsPrimToNumber pb)

/-- JS `===`.  Two object (or array) references compare by identity; the
analysed code never applies `===` to two objects, so those cases are
conservatively `false` here. -/
def jsStrictEq : JsVal → JsVal → Bool
  | JsVal.num a, JsVal.num b => JNum.eqb a b
  | JsVal.str a, JsVal.str b => a == b
  | JsVal.bool a, JsVal.bool b => a == b
  | JsVal.null, JsVal.null => true
  | JsVal.undef, JsVal.undef => true
  | _, _ => false

def jsStrictNe (a b : JsVal) : Bool := !jsStrictEq a b

/-- Property read `base[key]`: throws (models a TypeError) on null and
undefined; `length` works on strings and arrays; other reads on
primitives give undefined.  (Numeric index reads on strings/arrays are
never performed by the analysed code.) -/
def jsMember : JsVal → String → Except Unit JsVal
  | JsVal.null, _ => Except.error ()
  | JsVal.undef, _ => Except.error ()
  | JsVal.obj fs, k => Except.ok ((JsVal.lookupField fs k).getD JsVal.undef)
  | JsVal.arr xs, k =>
      Except.ok (if k = "length" then JsVal.num (JNum.fin xs.length)
        else match k.toNat? with
          | some i => (xs.get? i).getD JsVal.undef
          | none => JsVal.undef)
  | JsVal.str s, k =>
      Except.ok (if k = "length" then JsVal.num (JNum.fin s.length)
        else match k.toNat? with
          | some i => ((s.data.get? i).map fun c => JsVal.str ⟨[c]⟩).getD JsVal.undef
          | none => JsVal.undef)
  | _, _ => Except.ok JsVal.undef

/-- Property write `base[key] = v`: functional update on objects and on
array elements; sloppy mode silently discards writes to other primitives.
(The analysed code never writes a property on a null/undefined base, and
never relies on expando properties.) -/
def jsSetField (base : JsVal) (k : String) (v : JsVal) : JsVal :=
  match base with
  | JsVal.obj fs => JsVal.obj (JsVal.setFieldList fs k v)
  | JsVal.arr xs =>
      match k.toNat? with
      | some i => JsVal.arr (xs.set i v)
      | none => JsVal.arr xs
  | b => b

/-- `Object.entries`. -/
def jsEntries : JsVal → List (String × JsVal)
  | JsVal.obj fs => fs
  | JsVal.arr xs => xs.enum.map fun p => (toString p.1, p.2)
  | JsVal.str s => s.data.enum.map fun p => (toString p.1, JsVal.str ⟨[p.2]⟩)
  | _ => []

/-- `for (x of v)`: arrays and strings iterate, any other value throws. -/
def jsForOf : JsVal → Except Unit (List JsVal)
  | JsVal.arr xs => Except.ok xs
  | JsVal.str s => Except.ok (s.data.map fun c => JsVal.str ⟨[c]⟩)
  | _ => Except.error ()

/-! ## Response extraction (grader.js `parseGradingResponse`, lines 256-294) -/

def tripleBacktick : List Char := ['`', '`', '`']

/-- Index of the first occurrence of `pat` in `cs`. -/
def findSub (cs pat : List Char) : Option Nat :=
  (List.range (cs.length + 1)).find? fun i => (cs.drop i).take pat.length == pat

/-- Model of `jsonStr.match` against the fence regex of three backticks,
an optional `json` tag, greedy whitespace, then a lazy body up to the next
three backticks: the captured body of the first fenced block, if any. -/
def fenceExtract (cs : List Char) : Option (List Char) :=
  ((List.range (cs.length + 1)).filter
      (fun i => (cs.drop i).take 3 == tripleBacktick)).findSome? fun i =>
    let after := cs.drop (i + 3)
    let after2 := if after.take 4 == "json".data then after.drop 4 else after
    let body0 := after2.dropWhile isJsSpace
    match findSub body0 tripleBacktick with
    | some j => some (body0.take j)
    | none => none

def indexOfChar (cs : List Char) (c : Char) : Option Nat := cs.findIdx? (· = c)

def lastIndexOfChar (cs : List Char) (c : Char) : Option Nat :=
  (cs.reverse.findIdx? (· = c)).map fun i => cs.length - 1 - i

/-- The candidate string handed to the two parse attempts: trimmed, fence
interior extracted when a fenced block exists, then cut down to the first
opening brace. -/
def parseCandidate (responseText : String) : List Char :=
  let js0 := jsTrim responseText.data
  let js1 := match fenceExtract js0 with
    | some cap => jsTrim cap
    | none => js0
  match indexOfChar js1 '{' with
  | some i => js1.drop i
  | none => js1

/-- The two parse attempts of `parseGradingResponse`: first the substring
up to the last closing brace, then the repaired candidate.  `none` means
both attempts threw. -/
def parseAttempts (responseText : String) : Option JsVal :=
  let js2 := parseCandidate responseText
  let attempt1 : Option JsVal :=
    match lastIndexOfChar js2 '}' with
    | some e => jsonParse ⟨js2.take (e + 1)⟩
    | none => none
  match attempt1 with
  | some v => some v
  | none => jsonParse (repairTruncatedJson ⟨js2⟩)

def PARSE_ERROR_MSG : String :=
  "Could not parse model response as JSON. Raw response included."

/-- Did both parse attempts fail (the condition under which the code
builds its parse-error fallback object)? -/
def parseFailed (responseText : String) : Bool := (parseAttempts responseText).isNone

def parseGradingResponse (responseText : String) : JsVal :=
  match parseAttempts responseText with
  | some v => v
  | none => JsVal.obj [("raw_response", JsVal.str responseText),
                       ("parse_error", JsVal.str PARSE_ERROR_MSG)]

/-! ## Result normalizer (grader.js `validateAndClampResults`, lines 300-388)

The function is split into its four in-place passes (rescale, residual
fix, contradiction detection, clamp) exactly as they appear in the source;
`validateAndClampResults` below sequences them.  In-place mutation of the
criterion objects is rendered as a functional rewrite of the breakdown
value. -/

/-- Rewrite the values of an entries list in order. -/
def mapValsListM (f : JsVal → Except Unit JsVal) :
    List (String × JsVal) → Except Unit (List (String × JsVal))
  | [] => pure []
  | kv :: rest => do
      let v2 ← f kv.2
      let rest2 ← mapValsListM f rest
      pure ((kv.1, v2) :: rest2)

/-- Rewrite the elements of an array in order. -/
def mapElemsListM (f : JsVal → Except Unit JsVal) :
    List JsVal → Except Unit (List JsVal)
  | [] => pure []
  | x :: rest => do
      let v2 ← f x
      let rest2 ← mapElemsListM f rest
      pure (v2 :: rest2)

/-- Map an operation over the values that `Object.entries` exposes,
writing the results back: plain objects and arrays are rewritten
element-wise; for a string the loop bodies still run (and may throw), but
their writes to the primitive characters are discarded by sloppy mode;
any other value has no entries. -/
def mapEntryValsM (rb : JsVal) (f : JsVal → Except Unit JsVal) : Except Unit JsVal :=
  match rb with
  | JsVal.obj fs => do
      let fs2 ← mapValsListM f fs
      pure (JsVal.obj fs2)
  | JsVal.arr xs => do
      let xs2 ← mapElemsListM f xs
      pure (JsVal.arr xs2)
  | JsVal.str s => do
      let _ ← mapValsListM f (jsEntries (JsVal.str s))
      pure (JsVal.str s)
  | v => pure v

/-- One step of the `rawMaxSum` accumulation (lines 313-317): add
`details.max_points` when it is a number. -/
def rawMaxStep (acc : JNum) (kv : String × JsVal) : Except Unit JNum := do
  let mp ← jsMember kv.2 "max_points"
  pure (match mp with | JsVal.num n => JNum.add acc n | _ => acc)

/-- Rescale one criterion (lines 320-327): when both `score` and
`max_points` are numbers, ratio, rounded new maximum, rounded new score.
Note the source does not exclude `max_points = 0`, so the division
`score / max_points` can produce an infinity and the subsequent
`round(Infinity * 0)` a NaN score. -/
def rescaleOne (rawMaxSum maxScore : JNum) (details : JsVal) : Except Unit JsVal := do
  let sc ← jsMember details "score"
  let mp ← jsMember details "max_points"
  match sc, mp with
  | JsVal.num s, JsVal.num m =>
    let ratio := JNum.div m rawMaxSum
    let newMax := JNum.round (JNum.mul ratio maxScore)
    let newScore := JNum.round (JNum.mul (JNum.div s m) newMax)
    pure (jsSetField (jsSetField details "max_points" (JsVal.num newMax))
            "score" (JsVal.num newScore))
  | _, _ => pure details

/-- State of the scan at lines 331-340. -/
structure LargestScan where
  rescaledMaxSum : JsVal
  largestMax : JsVal
  largestCriterion : Option String
deriving Repr

/-- One step of the scan: `rescaledMaxSum += details.max_points` (a JS `+`
with no typeof guard) and the `details.max_points >= largestMax` update
(a JS relational comparison, also unguarded). -/
def largestStep (st : LargestScan) (kv : String × JsVal) : Except Unit LargestScan := do
  let mp ← jsMember kv.2 "max_points"
  let sum2 := jsPlus st.rescaledMaxSum mp
  if jsGe mp st.largestMax then
    pure ⟨sum2, mp, some kv.1⟩
  else
    pure ⟨sum2, st.largestMax, st.largestCriterion⟩

def largestScan (rb : JsVal) : Except Unit LargestScan :=
  (jsEntries rb).foldlM largestStep
    ⟨JsVal.num (JNum.fin 0), JsVal.num (JNum.fin 0), none⟩

/-- Lines 341-343: if the rescaled maxima do not sum to `maxScore` and a
largest criterion was found (`largestCriterion` is truthy, i.e. a
non-empty string), add the residual to that criterion.  The `+=` and `-`
are the coercing JS operators. -/
def applyResidualFix (rb : JsVal) (maxScore : JNum) (st : LargestScan) :
    Except Unit JsVal :=
  if jsStrictNe st.rescaledMaxSum (JsVal.num maxScore) then
    match st.largestCriterion with
    | some k =>
      if k = "" then pure rb
      else do
        let crit ← jsMember rb k
        let old ← jsMember crit "max_points"
        let delta := jsMinus (JsVal.num maxScore) st.rescaledMaxSum
        pure (jsSetField rb k (jsSetField crit "max_points" (jsPlus old delta)))
    | none => pure rb
  else pure rb

/-- Contradiction detection for one criterion (lines 349-360): a
full-marks numeric score whose string feedback matches the deficiency
patterns is decremented by one, floored at zero. -/
def detectOne (details : JsVal) : Except Unit JsVal := do
  let sc ← jsMember details "score"
  let mp ← jsMember details "max_points"
  match sc, mp with
  | JsVal.num s, JsVal.num m => do
    let fb ← jsMember details "feedback"
    match fb with
    | JsVal.str f =>
      if JNum.eqb s m then
        if deficitTest f then
          pure (jsSetField details "score"
            (JsVal.num (JNum.max2 (JNum.fin 0) (JNum.sub s (JNum.fin 1)))))
        else pure details
      else pure details
    | _ => pure details
  | _, _ => pure details

/-- Clamp one criterion (lines 365-372) and report its contribution to
`totalClamped` (`none` when the typeof guard skips the criterion). -/
def clampOne (details : JsVal) : Except Unit (JsVal × Option JNum) := do
  let sc ← jsMember details "score"
  let mp ← jsMember details "max_points"
  match sc, mp with
  | JsVal.num s, JsVal.num m =>
    let s1 := if JNum.gtb s m then m else s
    let s2 := if JNum.ltb s1 (JNum.fin 0) then JNum.fin 0 else s1
    pure (jsSetField details "score" (JsVal.num s2), some s2)
  | _, _ => pure (details, none)

/-- One object-entry step of the clamp loop: rewrite the criterion, cons
it up, and add its contribution to the running `totalClamped`. -/
def clampStepObj (acc : List (String × JsVal) × JNum) (kv : String × JsVal) :
    Except Unit (List (String × JsVal) × JNum) := do
  let (v2, c) ← clampOne kv.2
  pure ((kv.1, v2) :: acc.1,
    match c with | some n => JNum.add acc.2 n | none => acc.2)

/-- One array-element step of the clamp loop. -/
def clampStepArr (acc : List JsVal × JNum) (v : JsVal) :
    Except Unit (List JsVal × JNum) := do
  let (v2, c) ← clampOne v
  pure (v2 :: acc.1,
    match c with | some n => JNum.add acc.2 n | none => acc.2)

/-- The clamp loop (lines 362-374): rewrite every criterion and fold up
`totalClamped`. -/
def clampPass (rb : JsVal) : Except Unit (JsVal × JNum) :=
  match rb with
  | JsVal.obj fs => do
    let (rev2, total) ← fs.foldlM clampStepObj ([], JNum.fin 0)
    pure (JsVal.obj rev2.reverse, total)
  | JsVal.arr xs => do
    let (rev2, total) ← xs.foldlM clampStepArr ([], JNum.fin 0)
    pure (JsVal.arr rev2.reverse, total)
  | JsVal.str s => do
    let total ← (jsEntries (JsVal.str s)).foldlM
      (fun acc kv => do
        let (_, c) ← clampOne kv.2
        pure (match c with | some n => JNum.add acc n | none => acc))
      (JNum.fin 0)
    pure (JsVal.str s, total)
  | v => pure (v, JNum.fin 0)

/-- `validateAndClampResults(results, maxScore, studentName)`.  Returns
`Except.error ()` when the original would throw a TypeError (a property
read on a null/undefined criterion). -/
def validateAndClampResults (results : JsVal) (maxScore : JNum)
    (studentName : JsVal) : Except Unit JsVal := do
  -- line 301: if (!results || results.parse_error) return results
  if results.truthy = false then return results
  let pe ← jsMember results "parse_error"
  if pe.truthy then return results
  -- lines 304-306: default student_name
  let sn ← jsMember results "student_name"
  let results :=
    if sn.truthy = false || jsStrictEq sn (JsVal.str "Anonymous") then
      jsSetField results "student_name"
        (if studentName.truthy then studentName else JsVal.str "Anonymous")
    else results
  -- line 308: if (!results.rubric_breakdown) return results
  let rb0 ← jsMember results "rubric_breakdown"
  if rb0.truthy = false then return results
  -- lines 311-317: rawMaxSum over the numeric max_points
  let rawMaxSum ← (jsEntries rb0).foldlM rawMaxStep (JNum.fin 0)
  -- lines 319-344: rescale and residual fix
  let rb1 ←
    if JNum.neb rawMaxSum maxScore && JNum.gtb rawMaxSum (JNum.fin 0) then do
      let rbR ← mapEntryValsM rb0 (rescaleOne rawMaxSum maxScore)
      let st ← largestScan rbR
      applyResidualFix rbR maxScore st
    else pure rb0
  -- lines 346-360: contradiction detection
  let rb2 ← mapEntryValsM rb1 detectOne
  -- lines 362-374: clamp and totalClamped
  let (rb3, totalClamped) ← clampPass rb2
  let results := jsSetField results "rubric_breakdown" rb3
  -- lines 376-387: totals (the reads of total_score/max_score after the
  -- writes observe exactly the written numbers, results being an object
  -- whenever this point is reached)
  let results := jsSetField results "total_score" (JsVal.num totalClamped)
  let results := jsSetField results "max_score" (JsVal.num maxScore)
  let total1 := if JNum.gtb totalClamped maxScore then maxScore else totalClamped
  let results := jsSetField results "total_score" (JsVal.num total1)
  let pct0 := JNum.round (JNum.mul (JNum.div total1 maxScore) (JNum.fin 100))
  let pct1 := if JNum.gtb pct0 (JNum.fin 100) then JNum.fin 100 else pct0
  let results := jsSetField results "percentage" (JsVal.num pct1)
  pure results

/-! ## Text report (grader.js `formatTextReport`, lines 393-454) -/

def hline (c : Char) : String := ⟨List.replicate 60 c⟩

/-- `formatTextReport(results)`.  Template interpolation uses the JS
ToString coercion; `for..of` over a truthy non-iterable `strengths` or
`improvements` value throws, hence the `Except`. -/
def formatTextReport (results : JsVal) : Except Unit String := do
  let mut lns : List String := []
  lns := lns ++ [hline '═', "          GRADING REPORT", hline '═', ""]
  let sn ← jsMember results "student_name"
  if sn.truthy then
    lns := lns ++ ["Student: " ++ jsToString sn]
  let ts ← jsMember results "total_score"
  let ms ← jsMember results "max_score"
  let pc ← jsMember results "percentage"
  lns := lns ++ ["Score: " ++ jsToString ts ++ "/" ++ jsToString ms ++
                 " (" ++ jsToString pc ++ "%)"]
  lns := lns ++ ["", hline '─', "RUBRIC BREAKDOWN:", hline '─']
  let rb ← jsMember results "rubric_breakdown"
  if rb.truthy then
    for kv in jsEntries rb do
      let sc ← jsMember kv.2 "score"
      let mp ← jsMember kv.2 "max_points"
      lns := lns ++ ["  " ++ kv.1 ++ ": " ++ jsToString sc ++ "/" ++ jsToString mp]
      let fb ← jsMember kv.2 "feedback"
      if fb.truthy then
        lns := lns ++ ["    → " ++ jsToString fb]
  lns := lns ++ ["", hline '─', "STRENGTHS:", hline '─']
  let st ← jsMember results "strengths"
  if st.truthy then
    let stLen ← jsMember st "length"
    if jsGt stLen (JsVal.num (JNum.fin 0)) then
      for s in (← jsForOf st) do
        lns := lns ++ ["  • " ++ jsToString s]
  lns := lns ++ ["", hline '─', "AREAS FOR IMPROVEMENT:", hline '─']
  let imp ← jsMember results "improvements"
  if imp.truthy then
    let impLen ← jsMember imp "length"
    if jsGt impLen (JsVal.num (JNum.fin 0)) then
      for i in (← jsForOf imp) do
        lns := lns ++ ["  • " ++ jsToString i]
  let ov ← jsMember results "overall_feedback"
  if ov.truthy then
    lns := lns ++ ["", hline '─', "OVERALL FEEDBACK:", hline '─', "  " ++ jsToString ov]
  lns := lns ++ ["", hline '═']
  pure (String.intercalate "\n" lns)

/-! ## Grading pipeline / retry orchestrator
(grader.js `gradeSubmission`, lines 509-599)

The completion backend — one `ollama.chat` exchange or one Cursor CLI
process run, depending on the `backend` switch — is abstracted as an
oracle from the call index to the raw completion text; the prompt strings
(full grading prompt, then the minimal correction prompt) do not influence
the control flow being verified, and the backend kind only selects which
external channel carries them.  `calls` counts completion-backend calls;
`outcome` is the `{results, textReport}` part of the return value (the
`model` echo and the `gradedAt` wall-clock timestamp are environment
metadata outside the model), or `Except.error` where the original would
throw. -/

structure GradeOutcome where
  outcome : Except Unit (JsVal × String)
  calls : Nat
deriving Repr

/-- `{...base, key: v}`: object spread followed by one overriding field
(an existing `key` keeps its position, as in JS). -/
def jsSpreadSet (base : JsVal) (k : String) (v : JsVal) : JsVal :=
  match base with
  | JsVal.obj fs => JsVal.obj (JsVal.setFieldList fs k v)
  | JsVal.str s => JsVal.obj (JsVal.setFieldList (jsEntries (JsVal.str s)) k v)
  | JsVal.arr xs => JsVal.obj (JsVal.setFieldList (jsEntries (JsVal.arr xs)) k v)
  | _ => JsVal.obj [(k, v)]

/-- Lines 591-598: assemble the returned value. -/
def finishGrade (results : JsVal) (responseText : String) :
    Except Unit (JsVal × String) := do
  let pe ← jsMember results "parse_error"
  let tr ← if pe.truthy then pure responseText else formatTextReport results
  pure (results, tr)

/-- `gradeSubmission`: first backend call, parse + normalize, and — only
when the obtained results value carries a truthy `parse_error` — a single
retry, whose failure falls back to the first results value with the first
call's raw text spread in. -/
def gradeSubmission (oracle : Nat → String) (maxScore : JNum)
    (studentName : String) : GradeOutcome :=
  let responseText := oracle 0
  match validateAndClampResults (parseGradingResponse responseText) maxScore
      (JsVal.str studentName) with
  | Except.error e => ⟨Except.error e, 1⟩
  | Except.ok results1 =>
    match jsMember results1 "parse_error" with
    | Except.error e => ⟨Except.error e, 1⟩
    | Except.ok pe =>
      if pe.truthy then
        let retryText := oracle 1
        match validateAndClampResults (parseGradingResponse retryText) maxScore
            (JsVal.str studentName) with
        | Except.error e => ⟨Except.error e, 2⟩
        | Except.ok retry1 =>
          match jsMember retry1 "parse_error" with
          | Except.error e => ⟨Except.error e, 2⟩
          | Except.ok rpe =>
            let results2 := if rpe.truthy = false then retry1
              else jsSpreadSet results1 "raw_response" (JsVal.str responseText)
            ⟨finishGrade results2 responseText, 2⟩
      else ⟨finishGrade results1 responseText, 1⟩

/-! ## Specification-side definitions

These definitions follow the wording of the specification (not the code)
and are used in theorem statements to compare the embedded code against
what the specification asserts. -/

/-- Specification wording of the repair scan: a double quote toggles the
in-string state exactly when it is not preceded by an unescaped backslash,
i.e. when the run of immediately preceding backslashes has even length.
State: (inString, parity of the pending backslash run). -/
def specQuoteScanStep (st : Bool × Bool) (c : Char) : Bool × Bool :=
  if c = '\\' then (st.1, !st.2)
  else if c = '"' then (if st.2 then (st.1, false) else (!st.1, false))
  else (st.1, false)

def specQuoteScan (cs : List Char) : Bool :=
  (cs.foldl specQuoteScanStep (false, false)).1

/-- Rounding as the specification writes it: `round(x)` half-up. -/
def jroundQ (q : ℚ) : ℚ := ((⌊q + (1 : ℚ) / 2⌋ : ℤ) : ℚ)

/-- The finite numeric `score` of a criterion value, when it has one. -/
def scoreQ (v : JsVal) : Option ℚ :=
  match jsMember v "score" with
  | Except.ok (JsVal.num (JNum.fin q)) => some q
  | _ => none

/-- The finite numeric `max_points` of a criterion value, when it has
one. -/
def maxPointsQ (v : JsVal) : Option ℚ :=
  match jsMember v "max_points" with
  | Except.ok (JsVal.num (JNum.fin q)) => some q
  | _ => none

/-- Sum of the finite numeric `max_points` over an entries list. -/
def sumMaxQ (l : List (String × JsVal)) : ℚ :=
  (l.map fun kv => (maxPointsQ kv.2).getD 0).sum

/-- Sum of the finite numeric scores over an entries list. -/
def sumScoreQ (l : List (String × JsVal)) : ℚ :=
  (l.map fun kv => (scoreQ kv.2).getD 0).sum

/-- The clamp of a score into `[0, max_points]`, as the specification
describes it. -/
def clampQ (s m : ℚ) : ℚ := max 0 (min s m)

/-- A criterion value shaped the way the explicit claims assume: an object
whose `score` and `max_points` are finite numbers. -/
def FiniteCrit (v : JsVal) : Prop :=
  (∃ fs, v = JsVal.obj fs) ∧ (∃ s, scoreQ v = some s) ∧ ∃ m, maxPointsQ v = some m

/-- Replace the element at index `i` (out-of-range: unchanged). -/
def modifyAt (l : List ℚ) (i : Nat) (f : ℚ → ℚ) : List ℚ :=
  l.mapIdx fun j x => if j = i then f x else x

/-- Index `i` holds the greatest value of `l`, and strictly later indices
hold strictly smaller values: the last argmax. -/
def IsLastArgmax (l : List ℚ) (i : Nat) : Prop :=
  i < l.length ∧
  (∀ j, j < l.length → l.getD j 0 ≤ l.getD i 0) ∧
  (∀ j, i < j → j < l.length → l.getD j 0 < l.getD i 0)

/-- The rescaled maxima the specification prescribes for raw maxima `ms`,
raw sum `s` and target `target`. -/
def rescaledMaxes (ms : List ℚ) (s target : ℚ) : List ℚ :=
  ms.map fun m => jroundQ (m / s * target)

/-- The finite numeric maxima of an entries list (0 for criteria without
one; the lemmas using it always carry the hypothesis that every criterion
has one). -/
def maxesOf (fs : List (String × JsVal)) : List ℚ :=
  fs.map fun kv => (maxPointsQ kv.2).getD 0

/-! ## Claims -/

section Helpers

/-- Bind on a succeeded `Except` computation steps to the continuation. -/
theorem okBind {α β : Type} (a : α) (f : α → Except Unit β) :
    (Except.ok a : Except Unit α) >>= f = f a := rfl

/-- `pure` of the `Except` monad is `Except.ok`. -/
theorem purEq {α : Type} (a : α) : (pure a : Except Unit α) = Except.ok a := rfl

end Helpers

/-- C6: `parseGradingResponse` on the truncated input `{"a":{"b":1`
produces the repaired string `{"a":{"b":1}}` and returns the parsed
object; on the dangling-comma input `{"a":1,` the repair strips the
trailing comma before appending closers, yielding `{"a":1}` (no trailing
comma), which parses successfully. -/
theorem claim_C6_repair_examples :
    repairTruncatedJson "\x7b\"a\":\x7b\"b\":1" = "\x7b\"a\":\x7b\"b\":1\x7d\x7d" ∧
    parseGradingResponse "\x7b\"a\":\x7b\"b\":1" =
      JsVal.obj [("a", JsVal.obj [("b", JsVal.num (JNum.fin 1))])] ∧
    repairTruncatedJson "\x7b\"a\":1," = "\x7b\"a\":1\x7d" ∧
    jsonParse "\x7b\"a\":1\x7d" = some (JsVal.obj [("a", JsVal.num (JNum.fin 1))]) := by
  refine ⟨?_, ?_, ?_, ?_⟩ <;> with_unfolding_all rfl

/-- C7: the claim says a quote preceded by an escaped backslash toggles
the in-string state.  The code only inspects the single preceding
character, so on the valid JSON candidate `"a\\"` (quote, a, backslash,
backslash, quote) its scan ends *inside* a string, while the
specification scan ends outside; the repair then appends a spurious
quote, turning a parseable candidate into an unparseable one. -/
theorem claim_C7_one_char_lookback_eval :
    quoteScan ("\"a\\\\\"").data = true ∧
    specQuoteScan ("\"a\\\\\"").data = false ∧
    repairTruncatedJson "\"a\\\\\"" = "\"a\\\\\"\"" ∧
    jsonParse "\"a\\\\\"" = some (JsVal.str "a\\") ∧
    jsonParse (repairTruncatedJson "\"a\\\\\"") = none := by
  refine ⟨?_, ?_, ?_, ?_, ?_⟩ <;> with_unfolding_all rfl

/-- C8: the claim says a criterion whose `max_points` is 0 is skipped by
the rescale and no zero division happens.  The code's guard only checks
`typeof`, so a zero-max criterion *is* rescaled: `3 / 0 = Infinity`,
`Infinity * 0 = NaN`, and the NaN score then drives `total_score` and
`percentage` to NaN through the whole pipeline. -/
theorem claim_C8_zero_max_rescaled_eval :
    rescaleOne (JNum.fin 10) (JNum.fin 50)
        (JsVal.obj [("score", JsVal.num (JNum.fin 3)),
                    ("max_points", JsVal.num (JNum.fin 0))]) =
      Except.ok (JsVal.obj [("score", JsVal.num JNum.nan),
                            ("max_points", JsVal.num (JNum.fin 0))]) ∧
    validateAndClampResults
        (JsVal.obj [("rubric_breakdown", JsVal.obj
          [("A", JsVal.obj [("score", JsVal.num (JNum.fin 5)),
                            ("max_points", JsVal.num (JNum.fin 10))]),
           ("B", JsVal.obj [("score", JsVal.num (JNum.fin 3)),
                            ("max_points", JsVal.num (JNum.fin 0))])])])
        (JNum.fin 50) (JsVal.str "") =
      Except.ok (JsVal.obj
        [("rubric_breakdown", JsVal.obj
          [("A", JsVal.obj [("score", JsVal.num (JNum.fin 25)),
                            ("max_points", JsVal.num (JNum.fin 50))]),
           ("B", JsVal.obj [("score", JsVal.num JNum.nan),
                            ("max_points", JsVal.num (JNum.fin 0))])]),
         ("student_name", JsVal.str "Anonymous"),
         ("total_score", JsVal.num JNum.nan),
         ("max_score", JsVal.num (JNum.fin 50)),
         ("percentage", JsVal.num JNum.nan)]) := by
  refine ⟨?_, ?_⟩ <;> with_unfolding_all rfl

/-- C10 (counterexample): an input object that carries a `parse_error`
field with a *falsy* value (here the empty string) is not returned
unchanged — the pipeline proceeds and defaults `student_name`. -/
theorem claim_C10_counterexample :
    validateAndClampResults (JsVal.obj [("parse_error", JsVal.str "")])
        (JNum.fin 100) (JsVal.str "Bob") =
      Except.ok (JsVal.obj [("parse_error", JsVal.str ""),
                            ("student_name", JsVal.str "Bob")]) ∧
    JsVal.obj [("parse_error", JsVal.str ""), ("student_name", JsVal.str "Bob")] ≠
      JsVal.obj [("parse_error", JsVal.str "")] := by
  refine ⟨by with_unfolding_all rfl, ?_⟩
  intro h
  simp at h

/-- Shared helper: guarded pass-through of `validateAndClampResults`
(line 301 of the source). -/
theorem validate_passthrough (results : JsVal) (maxScore : JNum)
    (studentName : JsVal)
    (h : results.truthy = false ∨
         ∃ pe, jsMember results "parse_error" = Except.ok pe ∧ pe.truthy = true) :
    validateAndClampResults results maxScore studentName = Except.ok results := by
  rcases h with h | ⟨pe, hpe, ht⟩
  · simp [validateAndClampResults, h, purEq]
  · rcases Bool.eq_false_or_eq_true results.truthy with h2 | h2
    · unfold validateAndClampResults
      rw [h2]
      simp only [Bool.true_eq_false, if_false, hpe]
      simp only [purEq, okBind, ht, if_true]
    · simp [validateAndClampResults, h2, purEq]

/-- C10 (amended): any falsy input (null, undefined, 0, NaN, false, the
empty string) and any input whose `parse_error` property reads back as a
*truthy* value are returned completely unchanged by
`validateAndClampResults`. -/
theorem claim_C10_passthrough (results : JsVal) (maxScore : JNum)
    (studentName : JsVal)
    (h : results.truthy = false ∨
         ∃ pe, jsMember results "parse_error" = Except.ok pe ∧ pe.truthy = true) :
    validateAndClampResults results maxScore studentName = Except.ok results :=
  validate_passthrough results maxScore studentName h

/-- C10 witness: a concrete parse-error object passes through unchanged. -/
theorem claim_C10_witness :
    validateAndClampResults (JsVal.obj [("parse_error", JsVal.str "no good")])
        (JNum.fin 5) (JsVal.str "") =
      Except.ok (JsVal.obj [("parse_error", JsVal.str "no good")]) :=
  claim_C10_passthrough _ _ _ (Or.inr ⟨JsVal.str "no good", rfl, rfl⟩)

/-- C5: for a criterion with numeric score, numeric max_points and string
feedback, the contradiction detector decrements a full-marks score by
exactly one (floored at zero) when the feedback matches a deficiency
pattern, never touches a criterion whose score is strictly below its
maximum, and in particular turns score 10/10 with feedback
"Good, but citations are missing." into 9. -/
theorem claim_C5_detector (details : JsVal) (q qm : ℚ) (f : String)
    (hs : jsMember details "score" = Except.ok (JsVal.num (JNum.fin q)))
    (hm : jsMember details "max_points" = Except.ok (JsVal.num (JNum.fin qm)))
    (hf : jsMember details "feedback" = Except.ok (JsVal.str f)) :
    (q = qm → deficitTest f = true →
      detectOne details =
        Except.ok (jsSetField details "score"
          (JsVal.num (JNum.fin (max 0 (q - 1)))))) ∧
    (q < qm → detectOne details = Except.ok details) ∧
    detectOne (JsVal.obj [("score", JsVal.num (JNum.fin 10)),
                          ("max_points", JsVal.num (JNum.fin 10)),
                          ("feedback", JsVal.str "Good, but citations are missing.")]) =
      Except.ok (JsVal.obj [("score", JsVal.num (JNum.fin 9)),
                            ("max_points", JsVal.num (JNum.fin 10)),
                            ("feedback", JsVal.str "Good, but citations are missing.")]) := by
  refine ⟨?_, ?_, by with_unfolding_all rfl⟩
  · intro hqm hdef
    subst hqm
    unfold detectOne
    simp only [hs, okBind, hm, hf]
    simp only [JNum.eqb, JNum.max2, JNum.sub, JNum.add, JNum.neg, JNum.geb, purEq,
      decide_eq_true_eq, if_pos rfl, hdef, if_true]
    have h1 : q + -1 = q - 1 := by ring
    rw [h1]
    rcases le_or_lt q 1 with hq | hq
    · rw [if_pos (by linarith), max_eq_left (by linarith)]
    · rw [if_neg (not_le.mpr (by linarith)), max_eq_right (by linarith)]
  · intro hlt
    unfold detectOne
    simp only [hs, okBind, hm, hf]
    simp only [JNum.eqb, decide_eq_true_eq, purEq, if_neg (by exact ne_of_lt hlt)]

/-- C5 witness: a concrete below-maximum criterion is untouched by the
detector. -/
theorem claim_C5_witness :
    detectOne (JsVal.obj [("score", JsVal.num (JNum.fin 7)),
                          ("max_points", JsVal.num (JNum.fin 9)),
                          ("feedback", JsVal.str "solid")]) =
      Except.ok (JsVal.obj [("score", JsVal.num (JNum.fin 7)),
                            ("max_points", JsVal.num (JNum.fin 9)),
                            ("feedback", JsVal.str "solid")]) :=
  (claim_C5_detector _ 7 9 "solid" (by with_unfolding_all rfl)
    (by with_unfolding_all rfl) (by with_unfolding_all rfl)).2.1 (by norm_num)

/-- Shared helper: when both parse attempts fail, `parseGradingResponse`
returns the parse-error fallback object. -/
theorem parseFailed_response (s : String) (h : parseFailed s = true) :
    parseGradingResponse s =
      JsVal.obj [("raw_response", JsVal.str s),
                 ("parse_error", JsVal.str PARSE_ERROR_MSG)] := by
  unfold parseFailed at h
  unfold parseGradingResponse
  cases hp : parseAttempts s with
  | some v => rw [hp] at h; simp at h
  | none => rfl

/-- Shared helper: `validateAndClampResults` passes the parse-error
fallback object through unchanged. -/
theorem validate_errObj (s : String) (maxScore : JNum) (studentName : JsVal) :
    validateAndClampResults
        (JsVal.obj [("raw_response", JsVal.str s),
                    ("parse_error", JsVal.str PARSE_ERROR_MSG)])
        maxScore studentName =
      Except.ok (JsVal.obj [("raw_response", JsVal.str s),
                            ("parse_error", JsVal.str PARSE_ERROR_MSG)]) :=
  validate_passthrough _ _ _
    (Or.inr ⟨JsVal.str PARSE_ERROR_MSG, by with_unfolding_all rfl,
      by with_unfolding_all rfl⟩)

/-- C9: when both the first response and the retry response fail to parse,
`gradeSubmission` returns normally: exactly two calls, the results value
is the parse-error object carrying the *first* call's raw text (and no
numeric score fields), and the text report is that same first raw text. -/
theorem claim_C9_double_failure (oracle : Nat → String) (maxScore : JNum)
    (studentName : String)
    (h1 : parseFailed (oracle 0) = true) (h2 : parseFailed (oracle 1) = true) :
    gradeSubmission oracle maxScore studentName =
      ⟨Except.ok (JsVal.obj [("raw_response", JsVal.str (oracle 0)),
                             ("parse_error", JsVal.str PARSE_ERROR_MSG)],
                  oracle 0), 2⟩ := by
  simp only [gradeSubmission, parseFailed_response _ h1,
    parseFailed_response _ h2, validate_errObj]
  with_unfolding_all rfl

/-- C9 witness: a concrete double parse failure. -/
theorem claim_C9_witness :
    gradeSubmission (fun _ => "not json") (JNum.fin 100) "Alice" =
      ⟨Except.ok (JsVal.obj [("raw_response", JsVal.str "not json"),
                             ("parse_error", JsVal.str PARSE_ERROR_MSG)],
                  "not json"), 2⟩ :=
  claim_C9_double_failure _ _ _ (by with_unfolding_all rfl)
    (by with_unfolding_all rfl)

/-- C2 (counterexample): with a first response of `{"parse_error":true}` —
which parses perfectly well — `gradeSubmission` still makes a second
backend call, because the retry trigger is the truthiness of the
`parse_error` property on the results object, not a parse failure. -/
theorem claim_C2_counterexample :
    (gradeSubmission
        (fun i => if i = 0 then "\x7b\"parse_error\":true\x7d" else "\x7b\"a\":1\x7d")
        (JNum.fin 100) "").calls = 2 ∧
    parseFailed "\x7b\"parse_error\":true\x7d" = false := by
  refine ⟨?_, ?_⟩ <;> with_unfolding_all rfl

/-- C2 (amended): every invocation of `gradeSubmission` makes at most two
completion-backend calls, and exactly two are made if and only if the
first call's parsed-and-normalized results value carries a truthy
`parse_error` property — which happens on every parse failure, but also
when the parsed JSON itself contains a truthy `parse_error` field.  No
third call exists on any path. -/
theorem claim_C2_call_count (oracle : Nat → String) (maxScore : JNum)
    (studentName : String) :
    (gradeSubmission oracle maxScore studentName).calls ≤ 2 ∧
    ((gradeSubmission oracle maxScore studentName).calls = 2 ↔
      ∃ r pe,
        validateAndClampResults (parseGradingResponse (oracle 0)) maxScore
            (JsVal.str studentName) = Except.ok r ∧
        jsMember r "parse_error" = Except.ok pe ∧ pe.truthy = true) := by
  simp only [gradeSubmission]
  split
  next e hv =>
    refine ⟨by norm_num, ?_, ?_⟩
    · intro h; simp at h
    · rintro ⟨r, pe, hr, -, -⟩; rw [hv] at hr; simp at hr
  next r hv =>
    split
    next e hm =>
      refine ⟨by norm_num, ?_, ?_⟩
      · intro h; simp at h
      · rintro ⟨r2, pe, hr, hp, -⟩
        rw [hv] at hr
        injection hr with hr
        subst hr
        rw [hm] at hp
        simp at hp
    next pe hm =>
      rcases Bool.eq_false_or_eq_true pe.truthy with ht | ht
      · rw [if_pos ht]
        refine ⟨?_, ?_, ?_⟩
        · split
          · norm_num
          · split <;> norm_num
        · intro _; exact ⟨r, pe, hv, hm, ht⟩
        · intro _
          split
          · rfl
          · split <;> rfl
      · rw [if_neg (by simp [ht])]
        refine ⟨by norm_num, ?_, ?_⟩
        · intro h; simp at h
        · rintro ⟨r2, pe2, hr, hp, ht2⟩
          rw [hv] at hr
          injection hr with hr
          subst hr
          rw [hm] at hp
          injection hp with hp
          subst hp
          rw [ht] at ht2
          cases ht2

section ClampLemmas

/-- Inversion of a successful `Except` bind. -/
theorem bind_ok_inv {α β : Type} {x : Except Unit α} {f : α → Except Unit β}
    {r : β} (h : x >>= f = Except.ok r) :
    ∃ a, x = Except.ok a ∧ f a = Except.ok r := by
  cases x with
  | error e => exact Except.noConfusion h
  | ok a => exact ⟨a, rfl, h⟩

theorem lookup_setFieldList_same (fs : List (String × JsVal)) (k : String)
    (v : JsVal) : JsVal.lookupField (JsVal.setFieldList fs k v) k = some v := by
  induction fs with
  | nil => simp [JsVal.setFieldList, JsVal.lookupField]
  | cons kv rest ih =>
    by_cases h : kv.1 = k
    · simp [JsVal.setFieldList, JsVal.lookupField, h]
    · simp [JsVal.setFieldList, JsVal.lookupField, h, ih]

theorem lookup_setFieldList_other (fs : List (String × JsVal)) (k k2 : String)
    (v : JsVal) (hne : k2 ≠ k) :
    JsVal.lookupField (JsVal.setFieldList fs k v) k2 = JsVal.lookupField fs k2 := by
  induction fs with
  | nil =>
    simp only [JsVal.setFieldList, JsVal.lookupField]
    rw [if_neg (fun h => hne h.symm)]
  | cons kv rest ih =>
    by_cases h : kv.1 = k
    · subst h
      simp [JsVal.setFieldList, JsVal.lookupField, Ne.symm hne]
    · simp only [JsVal.setFieldList, if_neg h, JsVal.lookupField]
      by_cases h2 : kv.1 = k2
      · simp [h2]
      · simp [h2, ih]

/-- A falsy value exposes no entries. -/
theorem jsEntries_falsy (v : JsVal) (h : v.truthy = false) : jsEntries v = [] := by
  cases v <;> simp_all [JsVal.truthy, jsEntries]

theorem member_str_score (s : String) :
    jsMember (JsVal.str s) "score" = Except.ok JsVal.undef := by
  with_unfolding_all rfl

theorem member_str_max (s : String) :
    jsMember (JsVal.str s) "max_points" = Except.ok JsVal.undef := by
  with_unfolding_all rfl

theorem member_arr_score (xs : List JsVal) :
    jsMember (JsVal.arr xs) "score" = Except.ok JsVal.undef := by
  with_unfolding_all rfl

theorem member_arr_max (xs : List JsVal) :
    jsMember (JsVal.arr xs) "max_points" = Except.ok JsVal.undef := by
  with_unfolding_all rfl

theorem scoreQ_str (s : String) : scoreQ (JsVal.str s) = none := by
  simp [scoreQ, member_str_score]

/-- Bounds of one clamped criterion: when the written-back value has a
finite numeric score `s` and finite numeric max `m`, then `0 ≤ s`, and
`s ≤ m` whenever `0 ≤ m`. -/
theorem clampOne_bounds (v0 v : JsVal) (c : Option JNum)
    (h : clampOne v0 = Except.ok (v, c)) (s m : ℚ)
    (hs : scoreQ v = some s) (hm : maxPointsQ v = some m) :
    0 ≤ s ∧ (0 ≤ m → s ≤ m) := by
  unfold clampOne at h
  obtain ⟨sc, hsc, h⟩ := bind_ok_inv h
  obtain ⟨mp, hmp, h⟩ := bind_ok_inv h
  cases sc with
  | num s0 =>
    cases mp with
    | num m0 =>
      simp only [purEq, Except.ok.injEq, Prod.mk.injEq] at h
      obtain ⟨hv, -⟩ := h
      obtain ⟨fs0, rfl⟩ : ∃ fs0, v0 = JsVal.obj fs0 := by
        cases v0 with
        | obj fs0 => exact ⟨fs0, rfl⟩
        | null => cases hsc
        | undef => cases hsc
        | num n => simp [jsMember] at hsc
        | bool b => simp [jsMember] at hsc
        | str st => rw [member_str_score st] at hsc; simp at hsc
        | arr xs => rw [member_arr_score xs] at hsc; simp at hsc
      subst hv
      simp only [jsMember, Except.ok.injEq] at hmp
      simp only [scoreQ, jsMember, jsSetField, lookup_setFieldList_same,
        Option.getD_some] at hs
      simp only [maxPointsQ, jsMember, jsSetField,
        lookup_setFieldList_other fs0 "score" "max_points" _ (by decide),
        hmp] at hm
      -- hm forces m0 = fin m
      revert hm
      cases m0 with
      | fin mq =>
        intro hm
        simp only [Option.some.injEq] at hm
        subst hm
        -- case on the clamp conditionals inside hs
        rcases Bool.eq_false_or_eq_true (JNum.gtb s0 (JNum.fin mq)) with hg | hg <;>
          rw [hg] at hs <;> simp only [Bool.false_eq_true, if_false, if_true] at hs
        · -- score above max: replaced by the max, then possibly floored
          rcases Bool.eq_false_or_eq_true (JNum.ltb (JNum.fin mq) (JNum.fin 0))
            with hl | hl <;> rw [hl] at hs <;>
            simp only [Bool.false_eq_true, if_false, if_true] at hs
          · simp only [Option.some.injEq] at hs
            rw [← hs]
            exact ⟨le_refl 0, fun h0 => h0⟩
          · simp only [Option.some.injEq] at hs
            subst hs
            simp only [JNum.ltb, decide_eq_false_iff_not, not_lt] at hl
            exact ⟨hl, fun _ => le_refl mq⟩
        · -- score not above max: possibly floored at zero
          rcases Bool.eq_false_or_eq_true (JNum.ltb s0 (JNum.fin 0)) with hl | hl <;>
            rw [hl] at hs <;> simp only [Bool.false_eq_true, if_false, if_true] at hs
          · simp only [Option.some.injEq] at hs
            rw [← hs]
            exact ⟨le_refl 0, fun h0 => h0⟩
          · cases s0 with
            | fin sq =>
              simp only [Option.some.injEq] at hs
              subst hs
              simp only [JNum.ltb, decide_eq_false_iff_not, not_lt] at hl
              simp only [JNum.gtb, JNum.ltb, decide_eq_false_iff_not, not_lt] at hg
              exact ⟨hl, fun _ => hg⟩
            | inf => simp at hs
            | ninf => simp at hs
            | nan => simp at hs
      | inf => intro hm; simp at hm
      | ninf => intro hm; simp at hm
      | nan => intro hm; simp at hm
    | str a =>
      simp only [purEq, Except.ok.injEq, Prod.mk.injEq] at h
      obtain ⟨hv, -⟩ := h; subst hv; simp [maxPointsQ, hmp] at hm
    | bool a =>
      simp only [purEq, Except.ok.injEq, Prod.mk.injEq] at h
      obtain ⟨hv, -⟩ := h; subst hv; simp [maxPointsQ, hmp] at hm
    | null =>
      simp only [purEq, Except.ok.injEq, Prod.mk.injEq] at h
      obtain ⟨hv, -⟩ := h; subst hv; simp [maxPointsQ, hmp] at hm
    | undef =>
      simp only [purEq, Except.ok.injEq, Prod.mk.injEq] at h
      obtain ⟨hv, -⟩ := h; subst hv; simp [maxPointsQ, hmp] at hm
    | obj a =>
      simp only [purEq, Except.ok.injEq, Prod.mk.injEq] at h
      obtain ⟨hv, -⟩ := h; subst hv; simp [maxPointsQ, hmp] at hm
    | arr a =>
      simp only [purEq, Except.ok.injEq, Prod.mk.injEq] at h
      obtain ⟨hv, -⟩ := h; subst hv; simp [maxPointsQ, hmp] at hm
  | str a =>
    simp only [purEq, Except.ok.injEq, Prod.mk.injEq] at h
    obtain ⟨hv, -⟩ := h; subst hv; simp [scoreQ, hsc] at hs
  | bool a =>
    simp only [purEq, Except.ok.injEq, Prod.mk.injEq] at h
    obtain ⟨hv, -⟩ := h; subst hv; simp [scoreQ, hsc] at hs
  | null =>
    simp only [purEq, Except.ok.injEq, Prod.mk.injEq] at h
    obtain ⟨hv, -⟩ := h; subst hv; simp [scoreQ, hsc] at hs
  | undef =>
    simp only [purEq, Except.ok.injEq, Prod.mk.injEq] at h
    obtain ⟨hv, -⟩ := h; subst hv; simp [scoreQ, hsc] at hs
  | obj a =>
    simp only [purEq, Except.ok.injEq, Prod.mk.injEq] at h
    obtain ⟨hv, -⟩ := h; subst hv; simp [scoreQ, hsc] at hs
  | arr a =>
    simp only [purEq, Except.ok.injEq, Prod.mk.injEq] at h
    obtain ⟨hv, -⟩ := h; subst hv; simp [scoreQ, hsc] at hs

end ClampLemmas

section ClampMem

theorem clampFold_obj_mem (fs : List (String × JsVal))
    (acc : List (String × JsVal) × JNum) (out : List (String × JsVal) × JNum)
    (h : fs.foldlM clampStepObj acc = Except.ok out) :
    ∀ kv : String × JsVal, kv ∈ out.1 →
      kv ∈ acc.1 ∨ ∃ v0 c, clampOne v0 = Except.ok (kv.2, c) := by
  induction fs generalizing acc with
  | nil =>
    simp only [List.foldlM_nil, purEq, Except.ok.injEq] at h
    subst h
    exact fun kv hkv => Or.inl hkv
  | cons kv0 rest ih =>
    rw [List.foldlM_cons] at h
    obtain ⟨acc1, hstep, h⟩ := bind_ok_inv h
    unfold clampStepObj at hstep
    obtain ⟨⟨v2, c⟩, hclamp, hstep⟩ := bind_ok_inv hstep
    simp only [purEq, Except.ok.injEq] at hstep
    subst hstep
    intro kv hkv
    rcases ih _ h kv hkv with hmem | hcl
    · rcases List.mem_cons.mp hmem with heq | htail
      · subst heq
        exact Or.inr ⟨kv0.2, c, hclamp⟩
      · exact Or.inl htail
    · exact Or.inr hcl

theorem clampFold_arr_mem (xs : List JsVal)
    (acc : List JsVal × JNum) (out : List JsVal × JNum)
    (h : xs.foldlM clampStepArr acc = Except.ok out) :
    ∀ v : JsVal, v ∈ out.1 →
      v ∈ acc.1 ∨ ∃ v0 c, clampOne v0 = Except.ok (v, c) := by
  induction xs generalizing acc with
  | nil =>
    simp only [List.foldlM_nil, purEq, Except.ok.injEq] at h
    subst h
    exact fun v hv => Or.inl hv
  | cons x rest ih =>
    rw [List.foldlM_cons] at h
    obtain ⟨acc1, hstep, h⟩ := bind_ok_inv h
    unfold clampStepArr at hstep
    obtain ⟨⟨v2, c⟩, hclamp, hstep⟩ := bind_ok_inv hstep
    simp only [purEq, Except.ok.injEq] at hstep
    subst hstep
    intro v hv
    rcases ih _ h v hv with hmem | hcl
    · rcases List.mem_cons.mp hmem with heq | htail
      · subst heq
        exact Or.inr ⟨x, c, hclamp⟩
      · exact Or.inl htail
    · exact Or.inr hcl

/-- Every entry value of a clamped breakdown either came out of
`clampOne`, or has no finite numeric score at all (string characters). -/
theorem clampPass_mem (rb2 rb3 : JsVal) (total : JNum)
    (h : clampPass rb2 = Except.ok (rb3, total)) (k : String) (v : JsVal)
    (hin : (k, v) ∈ jsEntries rb3) :
    (∃ v0 c, clampOne v0 = Except.ok (v, c)) ∨ scoreQ v = none := by
  cases rb2 with
  | obj fs =>
    unfold clampPass at h
    obtain ⟨⟨rev2, t⟩, hfold, h⟩ := bind_ok_inv h
    simp only [purEq, Except.ok.injEq, Prod.mk.injEq] at h
    obtain ⟨hrb3, -⟩ := h
    subst hrb3
    simp only [jsEntries, List.mem_reverse] at hin
    rcases clampFold_obj_mem fs _ _ hfold (k, v) hin with hmem | hcl
    · simp at hmem
    · exact Or.inl hcl
  | arr xs =>
    unfold clampPass at h
    obtain ⟨⟨rev2, t⟩, hfold, h⟩ := bind_ok_inv h
    simp only [purEq, Except.ok.injEq, Prod.mk.injEq] at h
    obtain ⟨hrb3, -⟩ := h
    subst hrb3
    simp only [jsEntries, List.mem_map] at hin
    obtain ⟨p, hp, hpv⟩ := hin
    cases hpv
    have hv2 : p.2 ∈ rev2.reverse := List.get?_mem (List.mem_enum_iff_get?.mp hp)
    rcases clampFold_arr_mem xs _ _ hfold p.2 (List.mem_reverse.mp hv2)
      with hmem | hcl
    · simp at hmem
    · exact Or.inl hcl
  | str s =>
    unfold clampPass at h
    obtain ⟨t, -, h⟩ := bind_ok_inv h
    simp only [purEq, Except.ok.injEq, Prod.mk.injEq] at h
    obtain ⟨hrb3, -⟩ := h
    subst hrb3
    simp only [jsEntries, List.mem_map] at hin
    obtain ⟨p, -, hpv⟩ := hin
    cases hpv
    exact Or.inr (scoreQ_str _)
  | num n =>
    simp only [clampPass, purEq, Except.ok.injEq, Prod.mk.injEq] at h
    obtain ⟨hrb3, -⟩ := h
    subst hrb3
    simp [jsEntries] at hin
  | bool b =>
    simp only [clampPass, purEq, Except.ok.injEq, Prod.mk.injEq] at h
    obtain ⟨hrb3, -⟩ := h
    subst hrb3
    simp [jsEntries] at hin
  | null =>
    simp only [clampPass, purEq, Except.ok.injEq, Prod.mk.injEq] at h
    obtain ⟨hrb3, -⟩ := h
    subst hrb3
    simp [jsEntries] at hin
  | undef =>
    simp only [clampPass, purEq, Except.ok.injEq, Prod.mk.injEq] at h
    obtain ⟨hrb3, -⟩ := h
    subst hrb3
    simp [jsEntries] at hin

end ClampMem

section C3Walk

theorem member_str_breakdown (s : String) :
    jsMember (JsVal.str s) "rubric_breakdown" = Except.ok JsVal.undef := by
  with_unfolding_all rfl

theorem member_arr_breakdown (xs : List JsVal) :
    jsMember (JsVal.arr xs) "rubric_breakdown" = Except.ok JsVal.undef := by
  with_unfolding_all rfl

/-- A value with a truthy `rubric_breakdown` property is an object. -/
theorem member_breakdown_truthy (w rb0 : JsVal)
    (h : jsMember w "rubric_breakdown" = Except.ok rb0)
    (ht : rb0.truthy = true) : ∃ fs, w = JsVal.obj fs := by
  cases w with
  | obj fs => exact ⟨fs, rfl⟩
  | null => cases h
  | undef => cases h
  | num n =>
    simp only [jsMember, Except.ok.injEq] at h
    rw [← h] at ht
    cases ht
  | bool b =>
    simp only [jsMember, Except.ok.injEq] at h
    rw [← h] at ht
    cases ht
  | str s =>
    rw [member_str_breakdown] at h
    injection h with h
    rw [← h] at ht
    cases ht
  | arr xs =>
    rw [member_arr_breakdown] at h
    injection h with h
    rw [← h] at ht
    cases ht

/-- Reading `rubric_breakdown` back through the final totals writes. -/
theorem member_after_totals (fs1 : List (String × JsVal)) (rb3 a b c d : JsVal) :
    jsMember (jsSetField (jsSetField (jsSetField (jsSetField
        (jsSetField (JsVal.obj fs1) "rubric_breakdown" rb3)
        "total_score" a) "max_score" b) "total_score" c) "percentage" d)
      "rubric_breakdown" = Except.ok rb3 := by
  simp [jsSetField, jsMember,
    lookup_setFieldList_other _ "percentage" "rubric_breakdown" _ (by decide),
    lookup_setFieldList_other _ "total_score" "rubric_breakdown" _ (by decide),
    lookup_setFieldList_other _ "max_score" "rubric_breakdown" _ (by decide),
    lookup_setFieldList_same]

/-- C3 (amended): after `validateAndClampResults` runs on a results value
whose `parse_error` is falsy, every criterion of the returned
`rubric_breakdown` with finite numeric score `s` and finite numeric
max_points `m` satisfies `0 ≤ s`, and `s ≤ m` whenever `0 ≤ m`.  (A
criterion with negative `max_points` keeps it and ends with score 0
above it, so the claim's unconditional `score ≤ max_points` is false.) -/
theorem claim_C3_clamped (results : JsVal) (maxScore : JNum)
    (studentName : JsVal) (pe : JsVal)
    (hpe : jsMember results "parse_error" = Except.ok pe)
    (hpef : pe.truthy = false) (r : JsVal)
    (hr : validateAndClampResults results maxScore studentName = Except.ok r)
    (rb : JsVal) (hrb : jsMember r "rubric_breakdown" = Except.ok rb)
    (k : String) (v : JsVal) (hin : (k, v) ∈ jsEntries rb)
    (s m : ℚ) (hs : scoreQ v = some s) (hm : maxPointsQ v = some m) :
    0 ≤ s ∧ (0 ≤ m → s ≤ m) := by
  rcases Bool.eq_false_or_eq_true results.truthy with htr | htr
  · -- the processed path
    unfold validateAndClampResults at hr
    rw [htr] at hr
    simp only [Bool.true_eq_false, if_false, hpe] at hr
    simp only [purEq, okBind, hpef, Bool.false_eq_true, if_false] at hr
    obtain ⟨sn, hsn, hr⟩ := bind_ok_inv hr
    obtain ⟨rb0, hrb0, hr⟩ := bind_ok_inv hr
    rcases Bool.eq_false_or_eq_true rb0.truthy with htr0 | htr0
    · -- breakdown truthy: rescale/detect/clamp ran
      simp only [htr0, Bool.true_eq_false, if_false] at hr
      obtain ⟨rawMaxSum, hraw, hr⟩ := bind_ok_inv hr
      obtain ⟨fs1, hfs1⟩ := member_breakdown_truthy _ _ hrb0 htr0
      rcases Bool.eq_false_or_eq_true
          (rawMaxSum.neb maxScore && rawMaxSum.gtb (JNum.fin 0)) with hcond | hcond <;>
        simp only [hcond, if_true, Bool.false_eq_true, if_false] at hr
      · -- rescale branch
        obtain ⟨rbR, -, hr⟩ := bind_ok_inv hr
        obtain ⟨st, -, hr⟩ := bind_ok_inv hr
        obtain ⟨rb1, -, hr⟩ := bind_ok_inv hr
        obtain ⟨rb2, -, hr⟩ := bind_ok_inv hr
        obtain ⟨d, hclamp, hr⟩ := bind_ok_inv hr
        injection hr with hr
        rw [hfs1] at hr
        rw [← hr, member_after_totals] at hrb
        injection hrb with hrb
        subst hrb
        rcases clampPass_mem rb2 d.1 d.2 hclamp k v hin with ⟨v0, c, hcl⟩ | hnone
        · exact clampOne_bounds v0 v c hcl s m hs hm
        · rw [hnone] at hs
          cases hs
      · -- no rescale
        obtain ⟨rb2, -, hr⟩ := bind_ok_inv hr
        obtain ⟨d, hclamp, hr⟩ := bind_ok_inv hr
        injection hr with hr
        rw [hfs1] at hr
        rw [← hr, member_after_totals] at hrb
        injection hrb with hrb
        subst hrb
        rcases clampPass_mem rb2 d.1 d.2 hclamp k v hin with ⟨v0, c, hcl⟩ | hnone
        · exact clampOne_bounds v0 v c hcl s m hs hm
        · rw [hnone] at hs
          cases hs
    · -- breakdown falsy: returned with no entries to speak of
      simp only [htr0, if_true, purEq, Except.ok.injEq] at hr
      rw [← hr, hrb0] at hrb
      injection hrb with hrb
      subst hrb
      rw [jsEntries_falsy _ htr0] at hin
      cases hin
  · -- falsy results value: returned unchanged, no entries
    rw [validate_passthrough results maxScore studentName (Or.inl htr)] at hr
    injection hr with hr
    subst hr
    cases results with
    | null => cases hpe
    | undef => cases hpe
    | obj fs => rw [JsVal.truthy] at htr; cases htr
    | arr xs => rw [JsVal.truthy] at htr; cases htr
    | num n =>
      simp only [jsMember, Except.ok.injEq] at hrb
      rw [← hrb] at hin
      simp [jsEntries] at hin
    | bool b =>
      simp only [jsMember, Except.ok.injEq] at hrb
      rw [← hrb] at hin
      simp [jsEntries] at hin
    | str s2 =>
      rw [member_str_breakdown] at hrb
      injection hrb with hrb
      rw [← hrb] at hin
      simp [jsEntries] at hin

end C3Walk

/-- C3 (counterexample): a criterion arriving with numeric score 3 and
numeric max_points -5 (rescaling skipped since the raw sum is ≤ 0) is
clamped to score 0, which is *not* ≤ its max_points: the claimed
invariant fails exactly in the "incoming max_points is negative" case the
claim includes. -/
theorem claim_C3_counterexample :
    validateAndClampResults
        (JsVal.obj [("rubric_breakdown", JsVal.obj
          [("A", JsVal.obj [("score", JsVal.num (JNum.fin 3)),
                            ("max_points", JsVal.num (JNum.fin (-5)))])])])
        (JNum.fin 10) (JsVal.str "") =
      Except.ok (JsVal.obj
        [("rubric_breakdown", JsVal.obj
          [("A", JsVal.obj [("score", JsVal.num (JNum.fin 0)),
                            ("max_points", JsVal.num (JNum.fin (-5)))])]),
         ("student_name", JsVal.str "Anonymous"),
         ("total_score", JsVal.num (JNum.fin 0)),
         ("max_score", JsVal.num (JNum.fin 10)),
         ("percentage", JsVal.num (JNum.fin 0))]) ∧
    ¬((0 : ℚ) ≤ -5) := by
  exact ⟨by with_unfolding_all rfl, by norm_num⟩

/-- C3 witness: the amended bound evaluated on a concrete 3-of-10
criterion. -/
theorem claim_C3_witness : (0 : ℚ) ≤ 3 ∧ ((0 : ℚ) ≤ 10 → (3 : ℚ) ≤ 10) :=
  claim_C3_clamped
    (JsVal.obj [("rubric_breakdown", JsVal.obj
      [("A", JsVal.obj [("score", JsVal.num (JNum.fin 3)),
                        ("max_points", JsVal.num (JNum.fin 10))])])])
    (JNum.fin 10) (JsVal.str "") JsVal.undef (by with_unfolding_all rfl) rfl
    (JsVal.obj
      [("rubric_breakdown", JsVal.obj
        [("A", JsVal.obj [("score", JsVal.num (JNum.fin 3)),
                          ("max_points", JsVal.num (JNum.fin 10))])]),
       ("student_name", JsVal.str "Anonymous"),
       ("total_score", JsVal.num (JNum.fin 3)),
       ("max_score", JsVal.num (JNum.fin 10)),
       ("percentage", JsVal.num (JNum.fin 30))])
    (by with_unfolding_all rfl)
    (JsVal.obj [("A", JsVal.obj [("score", JsVal.num (JNum.fin 3)),
                                 ("max_points", JsVal.num (JNum.fin 10))])])
    (by with_unfolding_all rfl)
    "A" (JsVal.obj [("score", JsVal.num (JNum.fin 3)),
                    ("max_points", JsVal.num (JNum.fin 10))])
    (List.Mem.head _) 3 10 (by with_unfolding_all rfl) (by with_unfolding_all rfl)

section PassChar

theorem add_fin (a b : ℚ) :
    JNum.add (JNum.fin a) (JNum.fin b) = JNum.fin (a + b) := rfl

theorem sub_fin (a b : ℚ) :
    JNum.sub (JNum.fin a) (JNum.fin b) = JNum.fin (a - b) := by
  simp [JNum.sub, JNum.add, JNum.neg, sub_eq_add_neg]

theorem max2_fin (a b : ℚ) :
    JNum.max2 (JNum.fin a) (JNum.fin b) = JNum.fin (max a b) := by
  simp only [JNum.max2, JNum.geb]
  by_cases hba : b ≤ a
  · simp [hba, max_eq_left hba]
  · simp [hba, max_eq_right (le_of_not_le hba)]

theorem jsPlus_num (a b : JNum) :
    jsPlus (JsVal.num a) (JsVal.num b) = JsVal.num (JNum.add a b) := rfl

theorem jsMinus_num (a b : JNum) :
    jsMinus (JsVal.num a) (JsVal.num b) = JsVal.num (JNum.sub a b) := rfl

theorem jsGe_num (a b : JNum) :
    jsGe (JsVal.num a) (JsVal.num b) = JNum.geb a b := rfl

theorem scoreQ_some (v : JsVal) (s : ℚ) :
    scoreQ v = some s ↔ jsMember v "score" = Except.ok (JsVal.num (JNum.fin s)) := by
  constructor
  · intro h
    unfold scoreQ at h
    split at h
    · rename_i heq
      injection h with h
      subst h
      exact heq
    · cases h
  · intro h
    unfold scoreQ
    rw [h]

theorem maxPointsQ_some (v : JsVal) (m : ℚ) :
    maxPointsQ v = some m ↔
      jsMember v "max_points" = Except.ok (JsVal.num (JNum.fin m)) := by
  constructor
  · intro h
    unfold maxPointsQ at h
    split at h
    · rename_i heq
      injection h with h
      subst h
      exact heq
    · cases h
  · intro h
    unfold maxPointsQ
    rw [h]

theorem member_set_same (fs : List (String × JsVal)) (k : String) (x : JsVal) :
    jsMember (jsSetField (JsVal.obj fs) k x) k = Except.ok x := by
  simp [jsSetField, jsMember, lookup_setFieldList_same]

theorem member_set_other (fs : List (String × JsVal)) (k k2 : String) (x : JsVal)
    (h : k2 ≠ k) :
    jsMember (jsSetField (JsVal.obj fs) k x) k2 = jsMember (JsVal.obj fs) k2 := by
  simp [jsSetField, jsMember, lookup_setFieldList_other fs k k2 x h]

end PassChar

section PassChar2

/-- `clampOne` on a finite criterion writes back exactly the clamp
`max 0 (min score max_points)` and contributes it to the total. -/
theorem clampOne_finite (gs : List (String × JsVal)) (q mq : ℚ)
    (hq : scoreQ (JsVal.obj gs) = some q)
    (hm : maxPointsQ (JsVal.obj gs) = some mq) :
    clampOne (JsVal.obj gs) =
      Except.ok (jsSetField (JsVal.obj gs) "score"
          (JsVal.num (JNum.fin (clampQ q mq))),
        some (JNum.fin (clampQ q mq))) := by
  unfold clampOne
  rw [(scoreQ_some _ _).mp hq, okBind, (maxPointsQ_some _ _).mp hm, okBind]
  simp only [purEq, Except.ok.injEq, Prod.mk.injEq]
  have hval : (if JNum.ltb (if JNum.gtb (JNum.fin q) (JNum.fin mq) = true
        then JNum.fin mq else JNum.fin q) (JNum.fin 0) = true then JNum.fin 0
        else if JNum.gtb (JNum.fin q) (JNum.fin mq) = true
          then JNum.fin mq else JNum.fin q) = JNum.fin (clampQ q mq) := by
    simp only [JNum.gtb, JNum.ltb, clampQ]
    by_cases h1 : mq < q
    · by_cases h2 : mq < 0
      · simp [h1, h2, min_eq_right (le_of_lt h1), max_eq_left (le_of_lt h2)]
      · simp [h1, h2, min_eq_right (le_of_lt h1), max_eq_right (not_lt.mp h2)]
    · by_cases h2 : q < 0
      · simp [h1, h2, min_eq_left (not_lt.mp h1), max_eq_left (le_of_lt h2)]
      · simp [h1, h2, min_eq_left (not_lt.mp h1), max_eq_right (not_lt.mp h2)]
  rw [hval]
  exact ⟨rfl, rfl⟩

/-- The relation between an input criterion and its clamped output. -/
def ClampRel (kv kv2 : String × JsVal) : Prop :=
  kv2.1 = kv.1 ∧ ∃ q m gs, kv.2 = JsVal.obj gs ∧ scoreQ kv.2 = some q ∧
    maxPointsQ kv.2 = some m ∧
    kv2.2 = jsSetField kv.2 "score" (JsVal.num (JNum.fin (clampQ q m)))

theorem sumScoreQ_cons (kv : String × JsVal) (l : List (String × JsVal)) :
    sumScoreQ (kv :: l) = (scoreQ kv.2).getD 0 + sumScoreQ l := by
  simp [sumScoreQ]

theorem sumMaxQ_cons (kv : String × JsVal) (l : List (String × JsVal)) :
    sumMaxQ (kv :: l) = (maxPointsQ kv.2).getD 0 + sumMaxQ l := by
  simp [sumMaxQ]

/-- The clamp fold on an all-finite entries list: it cannot throw, the
output entries are the clamped originals, and the running total adds the
sum of the clamped scores. -/
theorem clampFold_char (fs : List (String × JsVal))
    (hfc : ∀ kv ∈ fs, FiniteCrit kv.2) :
    ∀ (acc : List (String × JsVal)) (t : ℚ),
    ∃ fs2, fs.foldlM clampStepObj (acc, JNum.fin t) =
        Except.ok (fs2.reverse ++ acc, JNum.fin (t + sumScoreQ fs2)) ∧
      List.Forall₂ ClampRel fs fs2 := by
  induction fs with
  | nil =>
    intro acc t
    refine ⟨[], ?_, List.Forall₂.nil⟩
    simp [sumScoreQ, List.foldlM_nil, purEq]
  | cons kv rest ih =>
    intro acc t
    obtain ⟨⟨gs, hgs⟩, ⟨q, hq⟩, ⟨m, hm⟩⟩ := hfc kv (List.mem_cons_self _ _)
    have hclamp := clampOne_finite gs q m (hgs ▸ hq) (hgs ▸ hm)
    obtain ⟨fs2, hfold, hrel⟩ :=
      ih (fun kv2 h2 => hfc kv2 (List.mem_cons_of_mem _ h2))
        ((kv.1, jsSetField kv.2 "score" (JsVal.num (JNum.fin (clampQ q m)))) :: acc)
        (t + clampQ q m)
    refine ⟨(kv.1, jsSetField kv.2 "score"
        (JsVal.num (JNum.fin (clampQ q m)))) :: fs2, ?_, ?_⟩
    · rw [List.foldlM_cons]
      have hstep : clampStepObj (acc, JNum.fin t) kv =
          Except.ok ((kv.1, jsSetField kv.2 "score"
            (JsVal.num (JNum.fin (clampQ q m)))) :: acc,
            JNum.fin (t + clampQ q m)) := by
        unfold clampStepObj
        rw [hgs, hclamp, okBind]
        rw [← hgs]
        simp [purEq, add_fin]
      rw [hstep, okBind, hfold]
      have hsum : scoreQ (jsSetField kv.2 "score"
          (JsVal.num (JNum.fin (clampQ q m)))) = some (clampQ q m) := by
        rw [hgs]
        exact (scoreQ_some _ _).mpr (member_set_same _ _ _)
      rw [List.reverse_cons, List.append_assoc]
      simp only [List.cons_append, List.nil_append, sumScoreQ_cons, hsum,
        Option.getD_some]
      congr 2
      ring_nf
    · exact List.Forall₂.cons ⟨rfl, q, m, gs, hgs, hq, hm, rfl⟩ hrel

/-- `clampPass` on an all-finite object breakdown. -/
theorem clampPass_char (fs : List (String × JsVal))
    (hfc : ∀ kv ∈ fs, FiniteCrit kv.2) :
    ∃ fs2, clampPass (JsVal.obj fs) =
        Except.ok (JsVal.obj fs2, JNum.fin (sumScoreQ fs2)) ∧
      List.Forall₂ ClampRel fs fs2 := by
  obtain ⟨fs2, hfold, hrel⟩ := clampFold_char fs hfc [] 0
  refine ⟨fs2.reverse.reverse, ?_, by simpa using hrel⟩
  simp only [clampPass]
  rw [hfold, okBind]
  simp [purEq, List.reverse_reverse, sumScoreQ]

end PassChar2

section PassChar3

/-- Generic characterization of `mapValsListM` on a list where the
operation succeeds with a related output. -/
theorem mapValsListM_char (f : JsVal → Except Unit JsVal)
    (R : JsVal → JsVal → Prop) (fs : List (String × JsVal))
    (hf : ∀ kv ∈ fs, ∃ v2, f kv.2 = Except.ok v2 ∧ R kv.2 v2) :
    ∃ fs2, mapValsListM f fs = Except.ok fs2 ∧
      List.Forall₂ (fun kv kv2 => kv2.1 = kv.1 ∧ R kv.2 kv2.2) fs fs2 := by
  induction fs with
  | nil => exact ⟨[], rfl, List.Forall₂.nil⟩
  | cons kv rest ih =>
    obtain ⟨v2, hv2, hr⟩ := hf kv (List.mem_cons_self _ _)
    obtain ⟨fs2, hfs2, hrel⟩ :=
      ih fun kv2 h2 => hf kv2 (List.mem_cons_of_mem _ h2)
    refine ⟨(kv.1, v2) :: fs2, ?_, List.Forall₂.cons ⟨rfl, hr⟩ hrel⟩
    unfold mapValsListM
    rw [hv2, okBind, hfs2, okBind, purEq]

/-- The contradiction detector keeps a finite criterion finite and never
touches its `max_points`. -/
theorem detectOne_finite (v : JsVal) (h : FiniteCrit v) :
    ∃ v2, detectOne v = Except.ok v2 ∧
      (FiniteCrit v2 ∧ maxPointsQ v2 = maxPointsQ v) := by
  obtain ⟨⟨gs, rfl⟩, ⟨q, hq⟩, ⟨m, hm⟩⟩ := h
  unfold detectOne
  rw [(scoreQ_some _ _).mp hq, okBind, (maxPointsQ_some _ _).mp hm, okBind]
  simp only []
  rw [show jsMember (JsVal.obj gs) "feedback" =
    Except.ok ((JsVal.lookupField gs "feedback").getD JsVal.undef) from rfl, okBind]
  have hfc : FiniteCrit (JsVal.obj gs) := ⟨⟨gs, rfl⟩, ⟨q, hq⟩, ⟨m, hm⟩⟩
  cases hw : (JsVal.lookupField gs "feedback").getD JsVal.undef with
  | str f =>
    simp only []
    by_cases he : JNum.eqb (JNum.fin q) (JNum.fin m) = true
    · rw [if_pos he]
      by_cases hd : deficitTest f = true
      · rw [if_pos hd]
        refine ⟨_, rfl, ⟨⟨_, rfl⟩, ⟨max 0 (q - 1), ?_⟩, ⟨m, ?_⟩⟩, ?_⟩
        · rw [scoreQ_some, sub_fin, max2_fin]
          exact member_set_same _ _ _
        · rw [maxPointsQ_some]
          rw [member_set_other _ _ _ _ (by decide)]
          exact (maxPointsQ_some _ _).mp hm
        · rw [show maxPointsQ (jsSetField (JsVal.obj gs) "score"
              (JsVal.num (JNum.max2 (JNum.fin 0)
                (JNum.sub (JNum.fin q) (JNum.fin 1))))) =
            maxPointsQ (JsVal.obj gs) from by
              unfold maxPointsQ
              rw [member_set_other _ _ _ _ (by decide)]]
      · rw [if_neg hd]
        exact ⟨_, rfl, hfc, rfl⟩
    · rw [if_neg he]
      exact ⟨_, rfl, hfc, rfl⟩
  | num n => exact ⟨_, rfl, hfc, rfl⟩
  | bool b => exact ⟨_, rfl, hfc, rfl⟩
  | null => exact ⟨_, rfl, hfc, rfl⟩
  | undef => exact ⟨_, rfl, hfc, rfl⟩
  | obj o => exact ⟨_, rfl, hfc, rfl⟩
  | arr a => exact ⟨_, rfl, hfc, rfl⟩

/-- Rescaling one finite criterion with a nonzero raw-sum divisor and a
nonzero own maximum: the written-back values are the rounded rescales. -/
theorem rescaleOne_char (S M : ℚ) (hS : S ≠ 0) (gs : List (String × JsVal))
    (q mq : ℚ) (hq : scoreQ (JsVal.obj gs) = some q)
    (hm : maxPointsQ (JsVal.obj gs) = some mq) (hmq : mq ≠ 0) :
    ∃ v2, rescaleOne (JNum.fin S) (JNum.fin M) (JsVal.obj gs) = Except.ok v2 ∧
      (FiniteCrit v2 ∧
       scoreQ v2 = some (jroundQ (q / mq * jroundQ (mq / S * M))) ∧
       maxPointsQ v2 = some (jroundQ (mq / S * M))) := by
  unfold rescaleOne
  rw [(scoreQ_some _ _).mp hq, okBind, (maxPointsQ_some _ _).mp hm, okBind]
  simp only []
  have hdiv1 : JNum.div (JNum.fin mq) (JNum.fin S) = JNum.fin (mq / S) := by
    simp [JNum.div, hS]
  have hdiv2 : JNum.div (JNum.fin q) (JNum.fin mq) = JNum.fin (q / mq) := by
    simp [JNum.div, hmq]
  rw [hdiv1]
  rw [show JNum.mul (JNum.fin (mq / S)) (JNum.fin M) = JNum.fin (mq / S * M) from rfl]
  rw [show JNum.round (JNum.fin (mq / S * M)) = JNum.fin (jroundQ (mq / S * M)) from rfl]
  rw [hdiv2]
  rw [show JNum.mul (JNum.fin (q / mq)) (JNum.fin (jroundQ (mq / S * M))) =
    JNum.fin (q / mq * jroundQ (mq / S * M)) from rfl]
  rw [show JNum.round (JNum.fin (q / mq * jroundQ (mq / S * M))) =
    JNum.fin (jroundQ (q / mq * jroundQ (mq / S * M))) from rfl]
  rw [show jsSetField (JsVal.obj gs) "max_points"
      (JsVal.num (JNum.fin (jroundQ (mq / S * M)))) =
    JsVal.obj (JsVal.setFieldList gs "max_points"
      (JsVal.num (JNum.fin (jroundQ (mq / S * M))))) from rfl]
  have hsc2 : scoreQ (jsSetField
      (JsVal.obj (JsVal.setFieldList gs "max_points"
        (JsVal.num (JNum.fin (jroundQ (mq / S * M)))))) "score"
      (JsVal.num (JNum.fin (jroundQ (q / mq * jroundQ (mq / S * M)))))) =
      some (jroundQ (q / mq * jroundQ (mq / S * M))) :=
    (scoreQ_some _ _).mpr (member_set_same _ _ _)
  have hmp2 : maxPointsQ (jsSetField
      (JsVal.obj (JsVal.setFieldList gs "max_points"
        (JsVal.num (JNum.fin (jroundQ (mq / S * M)))))) "score"
      (JsVal.num (JNum.fin (jroundQ (q / mq * jroundQ (mq / S * M)))))) =
      some (jroundQ (mq / S * M)) := by
    rw [maxPointsQ_some, member_set_other _ _ _ _ (by decide)]
    exact member_set_same _ _ _
  exact ⟨_, rfl, ⟨⟨_, rfl⟩, ⟨_, hsc2⟩, ⟨_, hmp2⟩⟩, hsc2, hmp2⟩

end PassChar3

section PassChar4

/-- The raw max-points fold (lines 313-317) on an all-finite entries list
adds up the finite maxima. -/
theorem rawFold_char (fs : List (String × JsVal))
    (hfc : ∀ kv ∈ fs, ∃ m, maxPointsQ kv.2 = some m) :
    ∀ a : ℚ, fs.foldlM rawMaxStep (JNum.fin a) =
      Except.ok (JNum.fin (a + sumMaxQ fs)) := by
  induction fs with
  | nil =>
    intro a
    simp [sumMaxQ, List.foldlM_nil, purEq]
  | cons kv rest ih =>
    intro a
    obtain ⟨m, hm⟩ := hfc kv (List.mem_cons_self _ _)
    rw [List.foldlM_cons]
    have hstep : rawMaxStep (JNum.fin a) kv = Except.ok (JNum.fin (a + m)) := by
      unfold rawMaxStep
      rw [(maxPointsQ_some _ _).mp hm, okBind]
      rfl
    rw [hstep, okBind,
      ih (fun kv2 h2 => hfc kv2 (List.mem_cons_of_mem _ h2)) (a + m),
      sumMaxQ_cons, hm]
    simp only [Option.getD_some]
    congr 2
    ring

theorem foldl_max_init_le (l : List ℚ) : ∀ a : ℚ, a ≤ l.foldl max a := by
  induction l with
  | nil =>
    intro a
    simp
  | cons b rest ih =>
    intro a
    rw [List.foldl_cons]
    exact le_trans (le_max_left a b) (ih _)

theorem le_foldl_max_of_mem (l : List ℚ) :
    ∀ (a x : ℚ), x ∈ l → x ≤ l.foldl max a := by
  induction l with
  | nil =>
    intro a x hx
    cases hx
  | cons b rest ih =>
    intro a x hx
    rw [List.foldl_cons]
    rcases List.mem_cons.mp hx with rfl | hx
    · exact le_trans (le_max_right a x) (foldl_max_init_le rest _)
    · exact ih _ x hx

theorem foldl_max_choice (l : List ℚ) :
    ∀ a : ℚ, l.foldl max a = a ∨ l.foldl max a ∈ l := by
  induction l with
  | nil =>
    intro a
    exact Or.inl rfl
  | cons b rest ih =>
    intro a
    rw [List.foldl_cons]
    rcases ih (max a b) with h | h
    · rw [h]
      rcases max_choice a b with h2 | h2
      · exact Or.inl h2
      · exact Or.inr (List.mem_cons.mpr (Or.inl h2))
    · exact Or.inr (List.mem_cons_of_mem _ h)

theorem maxesOf_length (fs : List (String × JsVal)) :
    (maxesOf fs).length = fs.length := by
  simp [maxesOf]

theorem maxesOf_append (fs gs : List (String × JsVal)) :
    maxesOf (fs ++ gs) = maxesOf fs ++ maxesOf gs := by
  simp [maxesOf]

theorem sumMaxQ_append (fs gs : List (String × JsVal)) :
    sumMaxQ (fs ++ gs) = sumMaxQ fs + sumMaxQ gs := by
  simp [sumMaxQ]

theorem sumMaxQ_eq_sum_maxesOf (fs : List (String × JsVal)) :
    sumMaxQ fs = (maxesOf fs).sum := rfl

theorem getD_mem_of_lt (l : List ℚ) (j : Nat) (h : j < l.length) :
    l.getD j 0 ∈ l := by
  rw [List.getD_eq_getElem l 0 h]
  exact List.getElem_mem h

/-- One step of the largest-criterion scan on finite state and a finite
criterion: the JS `>=` update keeps the last tie. -/
theorem largestStep_fin (s L : ℚ) (c : Option String) (kv : String × JsVal)
    (m : ℚ) (hm : maxPointsQ kv.2 = some m) :
    largestStep ⟨JsVal.num (JNum.fin s), JsVal.num (JNum.fin L), c⟩ kv =
      Except.ok (if L ≤ m then
          ⟨JsVal.num (JNum.fin (s + m)), JsVal.num (JNum.fin m), some kv.1⟩
        else ⟨JsVal.num (JNum.fin (s + m)), JsVal.num (JNum.fin L), c⟩) := by
  unfold largestStep
  rw [(maxPointsQ_some _ _).mp hm, okBind]
  simp only [jsGe_num,
    show JNum.geb (JNum.fin m) (JNum.fin L) = decide (L ≤ m) from rfl,
    jsPlus_num, add_fin]
  by_cases hLm : L ≤ m
  · simp [hLm, purEq]
  · simp [hLm, purEq]

end PassChar4

section ScanChar

/-- The largest-criterion scan fold (lines 331-340) on an all-finite
entries list: the accumulator sums the finite maxima, the running largest
is `foldl max 0`, and the recorded criterion key is the last argmax of the
maxima (or `none` when every maximum is negative, the initial `0` never
being beaten). -/
theorem largestFold_char (fs : List (String × JsVal))
    (hfc : ∀ kv ∈ fs, ∃ m, maxPointsQ kv.2 = some m) :
    ∃ st : LargestScan, fs.foldlM largestStep
        ⟨JsVal.num (JNum.fin 0), JsVal.num (JNum.fin 0), none⟩ = Except.ok st ∧
      st.rescaledMaxSum = JsVal.num (JNum.fin (sumMaxQ fs)) ∧
      st.largestMax = JsVal.num (JNum.fin ((maxesOf fs).foldl max 0)) ∧
      ((st.largestCriterion = none ∧ ∀ x ∈ maxesOf fs, x < 0) ∨
       (∃ i, i < fs.length ∧
         st.largestCriterion = some ((fs.getD i ("", JsVal.null)).1) ∧
         (maxesOf fs).getD i 0 = (maxesOf fs).foldl max 0 ∧
         IsLastArgmax (maxesOf fs) i)) := by
  induction fs using List.reverseRecOn with
  | nil =>
    refine ⟨⟨JsVal.num (JNum.fin 0), JsVal.num (JNum.fin 0), none⟩, ?_, rfl,
      rfl, Or.inl ⟨rfl, ?_⟩⟩
    · simp [List.foldlM_nil, purEq]
    · intro x hx
      simp [maxesOf] at hx
  | append_singleton fs kv ih =>
    obtain ⟨m, hm⟩ := hfc kv (List.mem_append_right _ (List.mem_cons_self _ _))
    obtain ⟨st, hfold, hsum, hmax, hcrit⟩ :=
      ih (fun kv2 h2 => hfc kv2 (List.mem_append_left _ h2))
    obtain ⟨sv, mv, cv⟩ := st
    simp only at hsum hmax hcrit
    subst hsum
    subst hmax
    have hmaxes : maxesOf (fs ++ [kv]) = maxesOf fs ++ [m] := by
      rw [maxesOf_append]
      simp [maxesOf, hm]
    have hsum2 : sumMaxQ (fs ++ [kv]) = sumMaxQ fs + m := by
      rw [sumMaxQ_append]
      simp [sumMaxQ, hm]
    have hfoldmax : (maxesOf (fs ++ [kv])).foldl max 0 =
        max ((maxesOf fs).foldl max 0) m := by
      rw [hmaxes, List.foldl_append]
      rfl
    have hmlen : (maxesOf fs).length = fs.length := maxesOf_length fs
    by_cases hLm : (maxesOf fs).foldl max 0 ≤ m
    · refine ⟨⟨JsVal.num (JNum.fin (sumMaxQ fs + m)), JsVal.num (JNum.fin m),
        some kv.1⟩, ?_, by simp only [hsum2], ?_,
        Or.inr ⟨fs.length, by simp, ?_, ?_, ?_, ?_, ?_⟩⟩
      · rw [List.foldlM_append, hfold, okBind]
        simp only [List.foldlM_cons, List.foldlM_nil]
        rw [largestStep_fin _ _ _ _ m hm, if_pos hLm, okBind, purEq]
      · simp only [hfoldmax, max_eq_right hLm]
      · rw [List.getD_append_right _ _ _ _ (le_refl _)]
        simp
      · rw [hfoldmax, max_eq_right hLm, hmaxes,
          List.getD_append_right _ _ _ _ (by omega)]
        simp [hmlen]
      · rw [hmaxes]
        simp [hmlen]
      · intro j hj
        rw [hmaxes] at hj
        simp only [List.length_append, List.length_singleton, hmlen] at hj
        rw [hmaxes]
        have hgi : (maxesOf fs ++ [m]).getD fs.length 0 = m := by
          rw [List.getD_append_right _ _ _ _ (by omega)]
          simp [hmlen]
        rw [hgi]
        by_cases hji : j < fs.length
        · rw [List.getD_append _ _ _ _ (by omega)]
          exact le_trans
            (le_foldl_max_of_mem _ _ _ (getD_mem_of_lt _ _ (by omega))) hLm
        · have hje : j = fs.length := by omega
          rw [hje, hgi]
      · intro j hij hj
        exfalso
        rw [hmaxes] at hj
        simp only [List.length_append, List.length_singleton, hmlen] at hj
        omega
    · have hle : m ≤ (maxesOf fs).foldl max 0 := le_of_lt (not_le.mp hLm)
      refine ⟨⟨JsVal.num (JNum.fin (sumMaxQ fs + m)),
        JsVal.num (JNum.fin ((maxesOf fs).foldl max 0)), cv⟩, ?_,
        by simp only [hsum2], by simp only [hfoldmax, max_eq_left hle], ?_⟩
      · rw [List.foldlM_append, hfold, okBind]
        simp only [List.foldlM_cons, List.foldlM_nil]
        rw [largestStep_fin _ _ _ _ m hm, if_neg hLm, okBind, purEq]
      · rcases hcrit with ⟨hc, hneg⟩ | ⟨i, hi, hkey, hgd, hla1, hla2, hla3⟩
        · refine Or.inl ⟨hc, ?_⟩
          intro x hx
          rw [hmaxes] at hx
          rcases List.mem_append.mp hx with hx | hx
          · exact hneg x hx
          · simp only [List.mem_singleton] at hx
            subst hx
            have hL0 : 0 ≤ (maxesOf fs).foldl max 0 := foldl_max_init_le _ 0
            rcases foldl_max_choice (maxesOf fs) 0 with hch | hch
            · rw [hch] at hLm
              exact not_le.mp hLm
            · exact absurd (hneg _ hch) (not_lt.mpr hL0)
        · refine Or.inr ⟨i, by simp; omega, ?_, ?_, ?_, ?_, ?_⟩
          · rw [List.getD_append _ _ _ _ hi]
            exact hkey
          · rw [hfoldmax, max_eq_left hle, hmaxes,
              List.getD_append _ _ _ _ (by omega)]
            exact hgd
          · rw [hmaxes]
            simp only [List.length_append, List.length_singleton, hmlen]
            omega
          · intro j hj
            rw [hmaxes] at hj ⊢
            simp only [List.length_append, List.length_singleton, hmlen] at hj
            have hgdi : (maxesOf fs ++ [m]).getD i 0 = (maxesOf fs).getD i 0 :=
              List.getD_append _ _ _ _ (by omega)
            rw [hgdi]
            by_cases hji : j < fs.length
            · rw [List.getD_append _ _ _ _ (by omega)]
              exact hla2 j (by omega)
            · have hje : j = fs.length := by omega
              rw [hje, List.getD_append_right _ _ _ _ (by omega)]
              simp only [hmlen, Nat.sub_self, List.getD_cons_zero]
              rw [hgd]
              exact hle
          · intro j hij hj
            rw [hmaxes] at hj ⊢
            simp only [List.length_append, List.length_singleton, hmlen] at hj
            have hgdi : (maxesOf fs ++ [m]).getD i 0 = (maxesOf fs).getD i 0 :=
              List.getD_append _ _ _ _ (by omega)
            rw [hgdi]
            by_cases hji : j < fs.length
            · rw [List.getD_append _ _ _ _ (by omega)]
              exact hla3 j hij (by omega)
            · have hje : j = fs.length := by omega
              rw [hje, List.getD_append_right _ _ _ _ (by omega)]
              simp only [hmlen, Nat.sub_self, List.getD_cons_zero]
              rw [hgd]
              exact not_le.mp hLm

end ScanChar

section FieldIndex

theorem getD_pair_mem_of_lt (fs : List (String × JsVal)) (i : Nat)
    (h : i < fs.length) : fs.getD i ("", JsVal.null) ∈ fs := by
  rw [List.getD_eq_getElem fs ("", JsVal.null) h]
  exact List.getElem_mem h

theorem getD_fst_mem (fs : List (String × JsVal)) (i : Nat)
    (h : i < fs.length) :
    (fs.getD i ("", JsVal.null)).1 ∈ fs.map Prod.fst :=
  List.mem_map.mpr ⟨_, getD_pair_mem_of_lt fs i h, rfl⟩

/-- With pairwise-distinct keys, looking up the key of the `i`-th entry
finds exactly the `i`-th entry. -/
theorem lookupField_getD (fs : List (String × JsVal)) :
    ∀ i, i < fs.length → (fs.map Prod.fst).Nodup →
    JsVal.lookupField fs ((fs.getD i ("", JsVal.null)).1) =
      some ((fs.getD i ("", JsVal.null)).2) := by
  induction fs with
  | nil =>
    intro i hi
    cases hi
  | cons kv rest ih =>
    intro i hi hnd
    rw [List.map_cons] at hnd
    obtain ⟨hhead, htail⟩ := List.nodup_cons.mp hnd
    cases i with
    | zero =>
      simp [JsVal.lookupField]
    | succ j =>
      have hj : j < rest.length := by
        simpa using hi
      rw [List.getD_cons_succ]
      have hkmem : (rest.getD j ("", JsVal.null)).1 ∈ rest.map Prod.fst :=
        getD_fst_mem rest j hj
      rw [JsVal.lookupField]
      rw [if_neg (fun he => hhead (by rw [he]; exact hkmem))]
      exact ih j hj htail

/-- With pairwise-distinct keys, setting the key of the `i`-th entry
replaces exactly the `i`-th entry. -/
theorem setFieldList_getD (fs : List (String × JsVal)) :
    ∀ i, i < fs.length → (fs.map Prod.fst).Nodup → ∀ v : JsVal,
    JsVal.setFieldList fs ((fs.getD i ("", JsVal.null)).1) v =
      fs.set i ((fs.getD i ("", JsVal.null)).1, v) := by
  induction fs with
  | nil =>
    intro i hi
    cases hi
  | cons kv rest ih =>
    intro i hi hnd v
    rw [List.map_cons] at hnd
    obtain ⟨hhead, htail⟩ := List.nodup_cons.mp hnd
    cases i with
    | zero =>
      simp [JsVal.setFieldList]
    | succ j =>
      have hj : j < rest.length := by
        simpa using hi
      rw [List.getD_cons_succ]
      have hkmem : (rest.getD j ("", JsVal.null)).1 ∈ rest.map Prod.fst :=
        getD_fst_mem rest j hj
      rw [JsVal.setFieldList]
      rw [if_neg (fun he => hhead (by rw [he]; exact hkmem))]
      rw [ih j hj htail v]
      rfl

theorem mem_setFieldList (fs : List (String × JsVal)) (k : String) (x : JsVal) :
    ∀ kv2 ∈ JsVal.setFieldList fs k x, kv2 ∈ fs ∨ kv2 = (k, x) := by
  induction fs with
  | nil =>
    intro kv2 h2
    simp only [JsVal.setFieldList, List.mem_singleton] at h2
    exact Or.inr h2
  | cons kv rest ih =>
    intro kv2 h2
    rw [JsVal.setFieldList] at h2
    by_cases hk : kv.1 = k
    · rw [if_pos hk] at h2
      rcases List.mem_cons.mp h2 with h2 | h2
      · exact Or.inr (by rw [h2, hk])
      · exact Or.inl (List.mem_cons_of_mem _ h2)
    · rw [if_neg hk] at h2
      rcases List.mem_cons.mp h2 with h2 | h2
      · exact Or.inl (h2 ▸ List.mem_cons_self _ _)
      · rcases ih kv2 h2 with h3 | h3
        · exact Or.inl (List.mem_cons_of_mem _ h3)
        · exact Or.inr h3

theorem setFieldList_keys (fs : List (String × JsVal)) (k : String) (x : JsVal)
    (h : k ∈ fs.map Prod.fst) :
    (JsVal.setFieldList fs k x).map Prod.fst = fs.map Prod.fst := by
  induction fs with
  | nil =>
    cases h
  | cons kv rest ih =>
    rw [JsVal.setFieldList]
    by_cases hk : kv.1 = k
    · rw [if_pos hk]
      simp
    · rw [if_neg hk]
      have h2 : k ∈ rest.map Prod.fst := by
        rw [List.map_cons] at h
        rcases List.mem_cons.mp h with h2 | h2
        · exact absurd h2.symm hk
        · exact h2
      simp [ih h2]

theorem lookupField_of_mem_keys (fs : List (String × JsVal)) (k : String)
    (h : k ∈ fs.map Prod.fst) :
    ∃ v, JsVal.lookupField fs k = some v ∧ (k, v) ∈ fs := by
  induction fs with
  | nil =>
    cases h
  | cons kv rest ih =>
    rw [JsVal.lookupField]
    by_cases hk : kv.1 = k
    · refine ⟨kv.2, by rw [if_pos hk], ?_⟩
      rw [← hk]
      exact List.mem_cons_self _ _
    · have h2 : k ∈ rest.map Prod.fst := by
        rw [List.map_cons] at h
        rcases List.mem_cons.mp h with h2 | h2
        · exact absurd h2.symm hk
        · exact h2
      obtain ⟨v, hv, hmem⟩ := ih h2
      exact ⟨v, by rw [if_neg hk]; exact hv, List.mem_cons_of_mem _ hmem⟩

end FieldIndex

section ListArith

theorem mapIdx_const_id (l : List ℚ) :
    List.mapIdx (fun _ x => x) l = l := by
  induction l with
  | nil => rfl
  | cons a rest ih =>
    simp [List.mapIdx_cons, ih]

theorem modifyAt_eq_set (l : List ℚ) :
    ∀ (i : Nat), i < l.length → ∀ f : ℚ → ℚ,
    modifyAt l i f = l.set i (f (l.getD i 0)) := by
  induction l with
  | nil =>
    intro i hi
    cases hi
  | cons a rest ih =>
    intro i hi f
    cases i with
    | zero =>
      have h1 : (fun (j : Nat) (x : ℚ) => if j + 1 = 0 then f x else x) =
          fun (_ : Nat) (x : ℚ) => x := by
        funext j x
        simp
      simp only [modifyAt, List.mapIdx_cons, List.getD_cons_zero, List.set, h1]
      simp [mapIdx_const_id]
    | succ j =>
      have hj : j < rest.length := by
        simpa using hi
      have heq : (fun (j2 : Nat) (x : ℚ) => if j2 + 1 = j + 1 then f x else x) =
          fun (j2 : Nat) (x : ℚ) => if j2 = j then f x else x := by
        funext j2 x
        simp
      have ihj := ih j hj f
      simp only [modifyAt] at ihj
      simp only [modifyAt, List.mapIdx_cons, List.getD_cons_succ, List.set,
        heq, ihj]
      simp

theorem sum_set (l : List ℚ) :
    ∀ (i : Nat), i < l.length → ∀ a : ℚ,
    (l.set i a).sum = l.sum - l.getD i 0 + a := by
  induction l with
  | nil =>
    intro i hi
    cases hi
  | cons b rest ih =>
    intro i hi a
    cases i with
    | zero =>
      simp only [List.set, List.sum_cons, List.getD_cons_zero]
      ring
    | succ j =>
      have hj : j < rest.length := by
        simpa using hi
      simp only [List.set, List.sum_cons, List.getD_cons_succ, ih j hj a]
      ring

theorem maxesOf_set (fs : List (String × JsVal)) (i : Nat) (k : String)
    (v : JsVal) :
    maxesOf (fs.set i (k, v)) = (maxesOf fs).set i ((maxPointsQ v).getD 0) := by
  simp [maxesOf, List.map_set]

theorem maxesOf_getD (fs : List (String × JsVal)) (i : Nat)
    (h : i < fs.length) :
    (maxesOf fs).getD i 0 =
      (maxPointsQ ((fs.getD i ("", JsVal.null)).2)).getD 0 := by
  rw [List.getD_eq_getElem _ 0 (by simpa [maxesOf] using h),
    List.getD_eq_getElem _ _ h]
  simp [maxesOf]

theorem jroundQ_nonneg (q : ℚ) (h : 0 ≤ q) : 0 ≤ jroundQ q := by
  unfold jroundQ
  have h2 : (0 : ℤ) ≤ ⌊q + (1 : ℚ) / 2⌋ := by
    apply Int.le_floor.mpr
    push_cast
    linarith
  exact_mod_cast h2

end ListArith

section RelHelpers

theorem forall₂_keys_eq (R : JsVal → JsVal → Prop)
    (fs fs2 : List (String × JsVal))
    (h : List.Forall₂ (fun kv kv2 => kv2.1 = kv.1 ∧ R kv.2 kv2.2) fs fs2) :
    fs2.map Prod.fst = fs.map Prod.fst := by
  induction h with
  | nil => rfl
  | cons hab _ ih =>
    simp [ih, hab.1]

theorem forall₂_mem_right {α β : Type} {R : α → β → Prop} {l : List α}
    {l2 : List β} (h : List.Forall₂ R l l2) :
    ∀ b ∈ l2, ∃ a ∈ l, R a b := by
  induction h with
  | nil =>
    intro b hb
    cases hb
  | cons hab _ ih =>
    intro b hb
    rcases List.mem_cons.mp hb with hb | hb
    · exact ⟨_, List.mem_cons_self _ _, hb ▸ hab⟩
    · obtain ⟨a, ha, hr⟩ := ih b hb
      exact ⟨a, List.mem_cons_of_mem _ ha, hr⟩

theorem maxesOf_eq_of_forall₂ (fs fs2 : List (String × JsVal))
    (h : List.Forall₂ (fun kv kv2 => maxPointsQ kv2.2 = maxPointsQ kv.2) fs fs2) :
    maxesOf fs2 = maxesOf fs := by
  induction h with
  | nil => rfl
  | cons hab _ ih =>
    simp only [maxesOf, List.map_cons] at ih ⊢
    rw [hab, ih]

theorem clampRel_max (kv kv2 : String × JsVal) (h : ClampRel kv kv2) :
    maxPointsQ kv2.2 = maxPointsQ kv.2 := by
  obtain ⟨-, q, m, gs, hgs, -, -, hset⟩ := h
  rw [hset, hgs]
  unfold maxPointsQ
  rw [member_set_other _ _ _ _ (by decide)]

theorem clampRel_finite (kv kv2 : String × JsVal) (h : ClampRel kv kv2) :
    FiniteCrit kv2.2 := by
  obtain ⟨-, q, m, gs, hgs, hsc, hmp, hset⟩ := h
  rw [hset, hgs]
  refine ⟨⟨_, rfl⟩, ⟨clampQ q m, ?_⟩, ⟨m, ?_⟩⟩
  · rw [scoreQ_some]
    exact member_set_same _ _ _
  · rw [maxPointsQ_some, member_set_other _ _ _ _ (by decide)]
    rw [hgs] at hmp
    exact (maxPointsQ_some _ _).mp hmp

theorem finiteCrit_set_max (v : JsVal) (h : FiniteCrit v) (c : ℚ) :
    FiniteCrit (jsSetField v "max_points" (JsVal.num (JNum.fin c))) := by
  obtain ⟨⟨gs, rfl⟩, ⟨q, hq⟩, ⟨m, hm⟩⟩ := h
  refine ⟨⟨_, rfl⟩, ⟨q, ?_⟩, ⟨c, ?_⟩⟩
  · rw [scoreQ_some, member_set_other _ _ _ _ (by decide)]
    exact (scoreQ_some _ _).mp hq
  · rw [maxPointsQ_some]
    exact member_set_same _ _ _

end RelHelpers

section ResidualFix

theorem residualFix_skip_eq (fs : List (String × JsVal)) (M : ℚ)
    (st : LargestScan)
    (hsum : st.rescaledMaxSum = JsVal.num (JNum.fin M)) :
    applyResidualFix (JsVal.obj fs) (JNum.fin M) st =
      Except.ok (JsVal.obj fs) := by
  unfold applyResidualFix
  rw [hsum]
  have h : jsStrictNe (JsVal.num (JNum.fin M)) (JsVal.num (JNum.fin M)) = false := by
    simp [jsStrictNe, jsStrictEq, JNum.eqb]
  rw [h]
  simp [purEq]

theorem residualFix_none (fs : List (String × JsVal)) (mS : JNum)
    (st : LargestScan) (hc : st.largestCriterion = none) :
    applyResidualFix (JsVal.obj fs) mS st = Except.ok (JsVal.obj fs) := by
  unfold applyResidualFix
  rw [hc]
  by_cases h : jsStrictNe st.rescaledMaxSum (JsVal.num mS) = true
  · rw [if_pos h]
    rfl
  · rw [if_neg h]
    rfl

theorem residualFix_empty_key (fs : List (String × JsVal)) (mS : JNum)
    (st : LargestScan) (hc : st.largestCriterion = some "") :
    applyResidualFix (JsVal.obj fs) mS st = Except.ok (JsVal.obj fs) := by
  unfold applyResidualFix
  rw [hc]
  by_cases h : jsStrictNe st.rescaledMaxSum (JsVal.num mS) = true
  · rw [if_pos h]
    simp
    rfl
  · rw [if_neg h]
    rfl

/-- The residual fix when it fires: rescaled sum `S` differs from the
target `M`, a nonempty largest key `k` was recorded, and `k` looks up to a
criterion with finite `max_points` `mv`.  The criterion gets
`mv + (M - S)` written into `max_points`. -/
theorem residualFix_fix (fs : List (String × JsVal)) (S M : ℚ) (hne : S ≠ M)
    (st : LargestScan)
    (hsum : st.rescaledMaxSum = JsVal.num (JNum.fin S))
    (k : String) (hk : st.largestCriterion = some k) (hk0 : ¬ k = "")
    (v : JsVal) (hlook : JsVal.lookupField fs k = some v)
    (mv : ℚ) (hmv : maxPointsQ v = some mv) :
    applyResidualFix (JsVal.obj fs) (JNum.fin M) st =
      Except.ok (JsVal.obj (JsVal.setFieldList fs k
        (jsSetField v "max_points" (JsVal.num (JNum.fin (mv + (M - S))))))) := by
  unfold applyResidualFix
  rw [hsum, hk]
  have h : jsStrictNe (JsVal.num (JNum.fin S)) (JsVal.num (JNum.fin M)) = true := by
    simp [jsStrictNe, jsStrictEq, JNum.eqb, hne]
  rw [h, if_pos rfl]
  simp only [if_neg hk0]
  rw [show jsMember (JsVal.obj fs) k = Except.ok v from by
    simp [jsMember, hlook], okBind]
  rw [(maxPointsQ_some _ _).mp hmv, okBind]
  rw [jsMinus_num, sub_fin, jsPlus_num, add_fin, purEq]
  rfl

end ResidualFix

section RescaleBranch

theorem mapEntryValsM_obj (fs : List (String × JsVal))
    (f : JsVal → Except Unit JsVal) (fs2 : List (String × JsVal))
    (h : mapValsListM f fs = Except.ok fs2) :
    mapEntryValsM (JsVal.obj fs) f = Except.ok (JsVal.obj fs2) := by
  unfold mapEntryValsM
  simp only []
  rw [h, okBind, purEq]

/-- The contradiction-detection pass on an all-finite object breakdown:
entrywise success, keys kept, criteria kept finite, maxima untouched. -/
theorem detectPass_char (fsB : List (String × JsVal))
    (hfcB : ∀ kv ∈ fsB, FiniteCrit kv.2) (rb2 : JsVal)
    (hdet : mapEntryValsM (JsVal.obj fsB) detectOne = Except.ok rb2) :
    ∃ fs2, rb2 = JsVal.obj fs2 ∧
      List.Forall₂ (fun kv kv2 => kv2.1 = kv.1 ∧
        (FiniteCrit kv2.2 ∧ maxPointsQ kv2.2 = maxPointsQ kv.2)) fsB fs2 := by
  obtain ⟨fs2, hmap, hrel⟩ := mapValsListM_char detectOne
    (fun v v2 => FiniteCrit v2 ∧ maxPointsQ v2 = maxPointsQ v) fsB
    (fun kv h => detectOne_finite kv.2 (hfcB kv h))
  rw [mapEntryValsM_obj fsB detectOne fs2 hmap] at hdet
  injection hdet with hdet
  exact ⟨fs2, hdet.symm, hrel⟩

/-- The rescale-plus-residual-fix branch (lines 319-344) on an all-finite,
nonzero-maximum breakdown cannot throw and keeps every criterion finite. -/
theorem rescaleBranch_finite (fs : List (String × JsVal)) (S M : ℚ)
    (hS : S ≠ 0)
    (hfc : ∀ kv ∈ fs, ∃ gs q mq, kv.2 = JsVal.obj gs ∧ scoreQ kv.2 = some q ∧
      maxPointsQ kv.2 = some mq ∧ mq ≠ 0)
    (rbR : JsVal) (hrbR : mapEntryValsM (JsVal.obj fs)
      (rescaleOne (JNum.fin S) (JNum.fin M)) = Except.ok rbR)
    (st : LargestScan) (hst : largestScan rbR = Except.ok st)
    (rb1 : JsVal) (hfix : applyResidualFix rbR (JNum.fin M) st = Except.ok rb1) :
    ∃ fsB, rb1 = JsVal.obj fsB ∧ (∀ kv ∈ fsB, FiniteCrit kv.2) := by
  obtain ⟨fsR, hmap, hrel⟩ := mapValsListM_char _ (fun _ v2 => FiniteCrit v2) fs
    (fun kv h => by
      obtain ⟨gs, q, mq, hgs, hq, hmq, hmq0⟩ := hfc kv h
      obtain ⟨v2, hv2, hfin, -, -⟩ :=
        rescaleOne_char S M hS gs q mq (hgs ▸ hq) (hgs ▸ hmq) hmq0
      exact ⟨v2, by rw [hgs]; exact hv2, hfin⟩)
  rw [mapEntryValsM_obj _ _ _ hmap] at hrbR
  injection hrbR with hrbR
  subst hrbR
  have hfcR : ∀ kv ∈ fsR, FiniteCrit kv.2 := fun kv h => by
    obtain ⟨a, -, -, hr⟩ := forall₂_mem_right hrel kv h
    exact hr
  have hfcR2 : ∀ kv ∈ fsR, ∃ m, maxPointsQ kv.2 = some m := fun kv h =>
    (hfcR kv h).2.2
  obtain ⟨st2, hfold, hsum2, hmax2, hcrit2⟩ := largestFold_char fsR hfcR2
  unfold largestScan at hst
  simp only [jsEntries] at hst
  rw [hfold] at hst
  injection hst with hst
  subst hst
  by_cases hSM : sumMaxQ fsR = M
  · rw [residualFix_skip_eq fsR M st2 (by rw [hsum2, hSM])] at hfix
    injection hfix with hfix
    exact ⟨fsR, hfix.symm, hfcR⟩
  · rcases hcrit2 with ⟨hcnone, -⟩ | ⟨i, hi, hkey, -, -⟩
    · rw [residualFix_none fsR _ st2 hcnone] at hfix
      injection hfix with hfix
      exact ⟨fsR, hfix.symm, hfcR⟩
    · by_cases hk0 : (fsR.getD i ("", JsVal.null)).1 = ""
      · rw [residualFix_empty_key fsR _ st2 (by rw [hkey, hk0])] at hfix
        injection hfix with hfix
        exact ⟨fsR, hfix.symm, hfcR⟩
      · obtain ⟨v, hlook, hvmem⟩ :=
          lookupField_of_mem_keys fsR _ (getD_fst_mem fsR i hi)
        have hfcv : FiniteCrit v := hfcR _ hvmem
        obtain ⟨-, -, mv, hmv⟩ := hfcv
        rw [residualFix_fix fsR (sumMaxQ fsR) M hSM st2 hsum2 _ hkey hk0
          v hlook mv hmv] at hfix
        injection hfix with hfix
        refine ⟨_, hfix.symm, ?_⟩
        intro kv2 h2
        rcases mem_setFieldList _ _ _ kv2 h2 with h3 | h3
        · exact hfcR kv2 h3
        · rw [h3]
          exact finiteCrit_set_max v (hfcR _ hvmem) _

end RescaleBranch

section RescaleExact

theorem maxesOf_rescaled (S M : ℚ) (fs fsR : List (String × JsVal))
    (h : List.Forall₂ (fun kv kv2 => kv2.1 = kv.1 ∧ (FiniteCrit kv2.2 ∧
      ∀ mq, maxPointsQ kv.2 = some mq →
        maxPointsQ kv2.2 = some (jroundQ (mq / S * M)))) fs fsR)
    (hfc : ∀ kv ∈ fs, ∃ mq, maxPointsQ kv.2 = some mq) :
    maxesOf fsR = rescaledMaxes (maxesOf fs) S M := by
  revert hfc
  induction h with
  | nil =>
    intro hfc
    rfl
  | cons hab htail ih =>
    intro hfc
    obtain ⟨mq, hmq⟩ := hfc _ (List.mem_cons_self _ _)
    simp only [maxesOf, rescaledMaxes, List.map_cons]
    rw [hmq, hab.2.2 mq hmq]
    simp only [Option.getD_some]
    have ih2 := ih (fun kv h2 => hfc kv (List.mem_cons_of_mem _ h2))
    simp only [maxesOf, rescaledMaxes] at ih2
    rw [ih2]

/-- The rescale-plus-residual-fix branch, exactly: on an all-finite
breakdown with positive maxima, pairwise-distinct nonempty keys, a
positive divisor `S` and a nonnegative target `M`, the branch succeeds,
keys are kept, and the output maxima are the spec's rounded rescales with
the residual `M - sum` added at the LAST argmax index, making the maxima
sum to `M` exactly. -/
theorem rescaleBranch_exact (fs : List (String × JsVal)) (S M : ℚ)
    (hS0 : 0 < S) (hM0 : 0 ≤ M) (hfs : fs ≠ [])
    (hnd : (fs.map Prod.fst).Nodup) (hne : ∀ kv ∈ fs, kv.1 ≠ "")
    (hfc : ∀ kv ∈ fs, ∃ gs q mq, kv.2 = JsVal.obj gs ∧ scoreQ kv.2 = some q ∧
      maxPointsQ kv.2 = some mq ∧ 0 < mq)
    (rbR : JsVal) (hrbR : mapEntryValsM (JsVal.obj fs)
      (rescaleOne (JNum.fin S) (JNum.fin M)) = Except.ok rbR)
    (st : LargestScan) (hst : largestScan rbR = Except.ok st)
    (rb1 : JsVal) (hfix : applyResidualFix rbR (JNum.fin M) st = Except.ok rb1) :
    ∃ fsB, rb1 = JsVal.obj fsB ∧ (∀ kv ∈ fsB, FiniteCrit kv.2) ∧
      fsB.map Prod.fst = fs.map Prod.fst ∧
      sumMaxQ fsB = M ∧
      ∃ i, IsLastArgmax (rescaledMaxes (maxesOf fs) S M) i ∧
        maxesOf fsB = modifyAt (rescaledMaxes (maxesOf fs) S M) i
          (fun x => x + (M - (rescaledMaxes (maxesOf fs) S M).sum)) := by
  obtain ⟨fsR, hmap, hrel⟩ := mapValsListM_char _
    (fun v v2 => FiniteCrit v2 ∧ ∀ mq, maxPointsQ v = some mq →
      maxPointsQ v2 = some (jroundQ (mq / S * M))) fs
    (fun kv h => by
      obtain ⟨gs, q, mq, hgs, hq, hmq, hmq0⟩ := hfc kv h
      obtain ⟨v2, hv2, hfin, -, hmp2⟩ :=
        rescaleOne_char S M (ne_of_gt hS0) gs q mq (hgs ▸ hq) (hgs ▸ hmq)
          (ne_of_gt hmq0)
      refine ⟨v2, by rw [hgs]; exact hv2, hfin, ?_⟩
      intro mq2 hmq2
      rw [hmq] at hmq2
      injection hmq2 with hmq2
      rw [← hmq2]
      exact hmp2)
  rw [mapEntryValsM_obj _ _ _ hmap] at hrbR
  injection hrbR with hrbR
  subst hrbR
  have hfcR : ∀ kv ∈ fsR, FiniteCrit kv.2 := fun kv h => by
    obtain ⟨a, -, -, hr, -⟩ := forall₂_mem_right hrel kv h
    exact hr
  have hfcR2 : ∀ kv ∈ fsR, ∃ m, maxPointsQ kv.2 = some m := fun kv h =>
    (hfcR kv h).2.2
  have hmaxR : maxesOf fsR = rescaledMaxes (maxesOf fs) S M :=
    maxesOf_rescaled S M fs fsR hrel
      (fun kv h => by
        obtain ⟨gs, q, mq, hgs, hq, hmq, -⟩ := hfc kv h
        exact ⟨mq, hmq⟩)
  have hkeys : fsR.map Prod.fst = fs.map Prod.fst :=
    forall₂_keys_eq (fun v v2 => FiniteCrit v2 ∧ ∀ mq, maxPointsQ v = some mq →
      maxPointsQ v2 = some (jroundQ (mq / S * M))) fs fsR hrel
  have hndR : (fsR.map Prod.fst).Nodup := by
    rw [hkeys]
    exact hnd
  have hnonneg : ∀ x ∈ maxesOf fsR, 0 ≤ x := by
    intro x hx
    rw [hmaxR] at hx
    obtain ⟨m, hm, hx⟩ := List.mem_map.mp hx
    obtain ⟨kv, hkv, hm2⟩ := List.mem_map.mp hm
    obtain ⟨gs, q, mq, hgs, hq, hmq, hmq0⟩ := hfc kv hkv
    rw [← hx]
    apply jroundQ_nonneg
    have hm3 : m = mq := by
      rw [← hm2, hmq]
      rfl
    rw [hm3]
    have h1 : 0 ≤ mq / S := le_of_lt (div_pos hmq0 hS0)
    exact mul_nonneg h1 hM0
  have hlenR : fsR.length = fs.length := List.Forall₂.length_eq hrel |>.symm
  have hRne : maxesOf fsR ≠ [] := by
    intro hcon
    have : fsR = [] := by
      cases fsR with
      | nil => rfl
      | cons a l => cases hcon
    rw [this] at hlenR
    exact hfs (List.length_eq_zero.mp hlenR.symm)
  obtain ⟨st2, hfold, hsum2, hmax2, hcrit2⟩ := largestFold_char fsR hfcR2
  unfold largestScan at hst
  simp only [jsEntries] at hst
  rw [hfold] at hst
  injection hst with hst
  subst hst
  rcases hcrit2 with ⟨-, hneg⟩ | ⟨i, hi, hkey, hgd, hla⟩
  · exfalso
    obtain ⟨x, hx⟩ := List.exists_mem_of_ne_nil _ hRne
    exact absurd (hneg x hx) (not_lt.mpr (hnonneg x hx))
  · have hRlen : (rescaledMaxes (maxesOf fs) S M).length = fsR.length := by
      rw [← hmaxR]
      exact maxesOf_length fsR
    have hiR : i < (rescaledMaxes (maxesOf fs) S M).length := by
      rw [hRlen]
      exact hi
    have hlaR : IsLastArgmax (rescaledMaxes (maxesOf fs) S M) i := by
      rw [← hmaxR]
      exact hla
    by_cases hSM : sumMaxQ fsR = M
    · rw [residualFix_skip_eq fsR M st2 (by rw [hsum2, hSM])] at hfix
      injection hfix with hfix
      have hRsum : (rescaledMaxes (maxesOf fs) S M).sum = M := by
        rw [← hmaxR]
        exact hSM
      refine ⟨fsR, hfix.symm, hfcR, hkeys, hSM, i, hlaR, ?_⟩
      have hfz : (fun x : ℚ =>
          x + (M - (rescaledMaxes (maxesOf fs) S M).sum)) = fun x => x := by
        funext x
        rw [hRsum]
        ring
      rw [hfz]
      unfold modifyAt
      have h2 : (fun (j : Nat) (x : ℚ) => if j = i then x else x) =
          fun (_ : Nat) (x : ℚ) => x := by
        funext j x
        rw [ite_self]
      rw [h2, mapIdx_const_id, hmaxR]
    · have hk0 : ¬ (fsR.getD i ("", JsVal.null)).1 = "" := by
        have hkm : (fsR.getD i ("", JsVal.null)).1 ∈ fs.map Prod.fst := by
          rw [← hkeys]
          exact getD_fst_mem fsR i hi
        obtain ⟨kv, hkv, hkeq⟩ := List.mem_map.mp hkm
        rw [← hkeq]
        exact hne kv hkv
      have hlook := lookupField_getD fsR i hi hndR
      have hfcv : FiniteCrit (fsR.getD i ("", JsVal.null)).2 :=
        hfcR _ (getD_pair_mem_of_lt fsR i hi)
      obtain ⟨⟨gv, hgv⟩, -, mv, hmv⟩ := hfcv
      rw [residualFix_fix fsR (sumMaxQ fsR) M hSM st2 hsum2 _ hkey hk0
        _ hlook mv hmv] at hfix
      injection hfix with hfix
      have hkmemR : (fsR.getD i ("", JsVal.null)).1 ∈ fsR.map Prod.fst :=
        getD_fst_mem fsR i hi
      have hsetidx := setFieldList_getD fsR i hi hndR
        (jsSetField ((fsR.getD i ("", JsVal.null)).2) "max_points"
          (JsVal.num (JNum.fin (mv + (M - sumMaxQ fsR)))))
      have hmvnew : maxPointsQ (jsSetField ((fsR.getD i ("", JsVal.null)).2)
          "max_points" (JsVal.num (JNum.fin (mv + (M - sumMaxQ fsR))))) =
          some (mv + (M - sumMaxQ fsR)) := by
        rw [hgv, maxPointsQ_some]
        exact member_set_same _ _ _
      have hmvgd : (maxesOf fsR).getD i 0 = mv := by
        rw [maxesOf_getD fsR i hi, hmv]
        rfl
      have hRsumR : (rescaledMaxes (maxesOf fs) S M).sum = sumMaxQ fsR := by
        rw [← hmaxR]
        rfl
      refine ⟨_, hfix.symm, ?_, ?_, ?_, i, hlaR, ?_⟩
      · intro kv2 h2
        rcases mem_setFieldList _ _ _ kv2 h2 with h3 | h3
        · exact hfcR kv2 h3
        · rw [h3]
          exact finiteCrit_set_max _ (hfcR _ (getD_pair_mem_of_lt fsR i hi)) _
      · rw [setFieldList_keys fsR _ _ hkmemR, hkeys]
      · rw [hsetidx, sumMaxQ_eq_sum_maxesOf, maxesOf_set, hmvnew]
        simp only [Option.getD_some]
        rw [sum_set _ i (by rw [maxesOf_length]; exact hi), hmvgd,
          ← sumMaxQ_eq_sum_maxesOf]
        ring
      · rw [hsetidx, maxesOf_set, hmvnew]
        simp only [Option.getD_some]
        rw [modifyAt_eq_set _ i hiR]
        rw [← hmaxR, hmvgd, sumMaxQ_eq_sum_maxesOf]

end RescaleExact

section TotalsReads

theorem member_after_totals_total (fs1 : List (String × JsVal))
    (rb3 a b c d : JsVal) :
    jsMember (jsSetField (jsSetField (jsSetField (jsSetField
        (jsSetField (JsVal.obj fs1) "rubric_breakdown" rb3)
        "total_score" a) "max_score" b) "total_score" c) "percentage" d)
      "total_score" = Except.ok c := by
  simp [jsSetField, jsMember,
    lookup_setFieldList_other _ "percentage" "total_score" _ (by decide),
    lookup_setFieldList_same]

theorem member_after_totals_max (fs1 : List (String × JsVal))
    (rb3 a b c d : JsVal) :
    jsMember (jsSetField (jsSetField (jsSetField (jsSetField
        (jsSetField (JsVal.obj fs1) "rubric_breakdown" rb3)
        "total_score" a) "max_score" b) "total_score" c) "percentage" d)
      "max_score" = Except.ok b := by
  simp [jsSetField, jsMember,
    lookup_setFieldList_other _ "percentage" "max_score" _ (by decide),
    lookup_setFieldList_other _ "total_score" "max_score" _ (by decide),
    lookup_setFieldList_same]

theorem member_after_totals_pct (fs1 : List (String × JsVal))
    (rb3 a b c d : JsVal) :
    jsMember (jsSetField (jsSetField (jsSetField (jsSetField
        (jsSetField (JsVal.obj fs1) "rubric_breakdown" rb3)
        "total_score" a) "max_score" b) "total_score" c) "percentage" d)
      "percentage" = Except.ok d := by
  simp [jsSetField, jsMember, lookup_setFieldList_same]

/-- The JS cap `x > cap ? cap : x` on finite numbers is `min`. -/
theorem gtb_cap_min (t c : ℚ) :
    (if JNum.gtb (JNum.fin t) (JNum.fin c) = true then JNum.fin c
      else JNum.fin t) = JNum.fin (min t c) := by
  simp only [JNum.gtb, JNum.ltb]
  by_cases h : c < t
  · simp [h, min_eq_right (le_of_lt h)]
  · simp [h, min_eq_left (not_lt.mp h)]

/-- The percentage computation on a finite total and nonzero finite
maximum. -/
theorem pct_eval (t mx : ℚ) (hmx : mx ≠ 0) :
    JNum.round (JNum.mul (JNum.div (JNum.fin t) (JNum.fin mx))
      (JNum.fin 100)) = JNum.fin (jroundQ (t / mx * 100)) := by
  simp only [JNum.div, if_neg hmx]
  rfl

end TotalsReads

/-- C4 (amended): on a results object with falsy `parse_error`, an
all-finite nonzero-maximum `rubric_breakdown` and a nonzero target
`maxScore = M`, `validateAndClampResults` returns an object whose
`rubric_breakdown` holds the clamped criteria `fs3`, whose
`total_score` is `min (sum of the clamped scores) M` — the cap at
`maxScore` on line 381 means it is NOT always the sum of the clamped
scores, as the claim asserts — whose `max_score` is `M`, and whose
`percentage` is `round(total/max*100)` capped at 100. -/
theorem claim_C4_totals (rfs : List (String × JsVal)) (M : ℚ) (hM : M ≠ 0)
    (studentName : JsVal) (pe : JsVal)
    (hpe : jsMember (JsVal.obj rfs) "parse_error" = Except.ok pe)
    (hpef : pe.truthy = false)
    (fs : List (String × JsVal))
    (hrb0 : jsMember (JsVal.obj rfs) "rubric_breakdown" =
      Except.ok (JsVal.obj fs))
    (hfc : ∀ kv ∈ fs, ∃ gs q mq, kv.2 = JsVal.obj gs ∧ scoreQ kv.2 = some q ∧
      maxPointsQ kv.2 = some mq ∧ mq ≠ 0)
    (r : JsVal)
    (hr : validateAndClampResults (JsVal.obj rfs) (JNum.fin M) studentName =
      Except.ok r) :
    ∃ fs3, jsMember r "rubric_breakdown" = Except.ok (JsVal.obj fs3) ∧
      (∀ kv ∈ fs3, FiniteCrit kv.2) ∧
      jsMember r "total_score" =
        Except.ok (JsVal.num (JNum.fin (min (sumScoreQ fs3) M))) ∧
      jsMember r "max_score" = Except.ok (JsVal.num (JNum.fin M)) ∧
      jsMember r "percentage" = Except.ok (JsVal.num (JNum.fin
        (min (jroundQ (min (sumScoreQ fs3) M / M * 100)) 100))) ∧
      min (sumScoreQ fs3) M ≤ M ∧
      min (jroundQ (min (sumScoreQ fs3) M / M * 100)) 100 ≤ 100 := by
  unfold validateAndClampResults at hr
  rw [show (JsVal.obj rfs).truthy = true from rfl] at hr
  simp only [Bool.true_eq_false, if_false, hpe] at hr
  simp only [purEq, okBind, hpef, Bool.false_eq_true, if_false] at hr
  obtain ⟨sn, hsn, hr⟩ := bind_ok_inv hr
  have hres1 : ∃ rfs1,
      (if (decide (sn.truthy = false) || jsStrictEq sn (JsVal.str "Anonymous"))
          = true then
        jsSetField (JsVal.obj rfs) "student_name"
          (if studentName.truthy = true then studentName
            else JsVal.str "Anonymous")
      else JsVal.obj rfs) = JsVal.obj rfs1 ∧
      jsMember (JsVal.obj rfs1) "rubric_breakdown" =
        Except.ok (JsVal.obj fs) := by
    by_cases hc : (decide (sn.truthy = false) ||
        jsStrictEq sn (JsVal.str "Anonymous")) = true
    · rw [if_pos hc]
      refine ⟨_, rfl, ?_⟩
      have h4 : jsMember (JsVal.obj (JsVal.setFieldList rfs "student_name"
          (if studentName.truthy = true then studentName
            else JsVal.str "Anonymous"))) "rubric_breakdown" =
          jsMember (JsVal.obj rfs) "rubric_breakdown" :=
        member_set_other rfs "student_name" "rubric_breakdown" _ (by decide)
      rw [h4]
      exact hrb0
    · rw [if_neg hc]
      exact ⟨rfs, rfl, hrb0⟩
  obtain ⟨rfs1, hres1, hrb1⟩ := hres1
  rw [hres1] at hr
  obtain ⟨rb0, hrb0x, hr⟩ := bind_ok_inv hr
  rw [hrb1] at hrb0x
  injection hrb0x with hrb0x
  subst hrb0x
  rw [show (JsVal.obj fs).truthy = true from rfl] at hr
  simp only [Bool.true_eq_false, if_false] at hr
  obtain ⟨rawMaxSum, hraw, hr⟩ := bind_ok_inv hr
  have hfcm : ∀ kv ∈ fs, ∃ m, maxPointsQ kv.2 = some m := fun kv h => by
    obtain ⟨gs, q, mq, hgs, hq, hmq, -⟩ := hfc kv h
    exact ⟨mq, hmq⟩
  rw [show jsEntries (JsVal.obj fs) = fs from rfl,
    rawFold_char fs hfcm 0] at hraw
  injection hraw with hraw
  rw [zero_add] at hraw
  subst hraw
  have hfin3 : ∀ (fs2 : List (String × JsVal)),
      (∀ kv ∈ fs2, FiniteCrit kv.2) → ∀ (fs3 : List (String × JsVal)),
      List.Forall₂ ClampRel fs2 fs3 → ∀ kv ∈ fs3, FiniteCrit kv.2 := by
    intro fs2 hfc2 fs3 hrel3 kv h
    obtain ⟨a, -, hcr⟩ := forall₂_mem_right hrel3 kv h
    exact clampRel_finite a kv hcr
  rcases Bool.eq_false_or_eq_true
      (JNum.neb (JNum.fin (sumMaxQ fs)) (JNum.fin M) &&
        JNum.gtb (JNum.fin (sumMaxQ fs)) (JNum.fin 0)) with hcond | hcond <;>
    simp only [hcond, if_true, Bool.false_eq_true, if_false] at hr
  · obtain ⟨rbR, hrbR, hr⟩ := bind_ok_inv hr
    obtain ⟨st, hst, hr⟩ := bind_ok_inv hr
    obtain ⟨rb1, hfix, hr⟩ := bind_ok_inv hr
    obtain ⟨rb2, hdet, hr⟩ := bind_ok_inv hr
    have hS : sumMaxQ fs ≠ 0 := by
      have h2 := ((Bool.and_eq_true _ _).mp hcond).2
      have h3 : (0 : ℚ) < sumMaxQ fs := by
        simpa [JNum.gtb, JNum.ltb] using h2
      exact ne_of_gt h3
    obtain ⟨fsB, hrb1eq, hfcB⟩ :=
      rescaleBranch_finite fs (sumMaxQ fs) M hS hfc rbR hrbR st hst rb1 hfix
    subst hrb1eq
    obtain ⟨fs2, hrb2eq, hrel2⟩ := detectPass_char fsB hfcB rb2 hdet
    subst hrb2eq
    obtain ⟨d, hclamp, hr⟩ := bind_ok_inv hr
    have hfc2 : ∀ kv ∈ fs2, FiniteCrit kv.2 := fun kv h => by
      obtain ⟨a, -, -, hfin, -⟩ := forall₂_mem_right hrel2 kv h
      exact hfin
    obtain ⟨fs3, hclampeq, hrel3⟩ := clampPass_char fs2 hfc2
    rw [hclampeq] at hclamp
    injection hclamp with hclamp
    subst hclamp
    injection hr with hr
    subst hr
    refine ⟨fs3, ?_, hfin3 fs2 hfc2 fs3 hrel3, ?_, ?_, ?_, min_le_right _ _,
      min_le_right _ _⟩
    · rw [member_after_totals]
    · rw [member_after_totals_total]
      simp only [gtb_cap_min]
    · rw [member_after_totals_max]
    · rw [member_after_totals_pct]
      simp only [gtb_cap_min, pct_eval _ _ hM]
  · obtain ⟨rb2, hdet, hr⟩ := bind_ok_inv hr
    have hfcB : ∀ kv ∈ fs, FiniteCrit kv.2 := fun kv h => by
      obtain ⟨gs, q, mq, hgs, hq, hmq, -⟩ := hfc kv h
      exact ⟨⟨gs, hgs⟩, ⟨q, hq⟩, ⟨mq, hmq⟩⟩
    obtain ⟨fs2, hrb2eq, hrel2⟩ := detectPass_char fs hfcB rb2 hdet
    subst hrb2eq
    obtain ⟨d, hclamp, hr⟩ := bind_ok_inv hr
    have hfc2 : ∀ kv ∈ fs2, FiniteCrit kv.2 := fun kv h => by
      obtain ⟨a, -, -, hfin, -⟩ := forall₂_mem_right hrel2 kv h
      exact hfin
    obtain ⟨fs3, hclampeq, hrel3⟩ := clampPass_char fs2 hfc2
    rw [hclampeq] at hclamp
    injection hclamp with hclamp
    subst hclamp
    injection hr with hr
    subst hr
    refine ⟨fs3, ?_, hfin3 fs2 hfc2 fs3 hrel3, ?_, ?_, ?_, min_le_right _ _,
      min_le_right _ _⟩
    · rw [member_after_totals]
    · rw [member_after_totals_total]
      simp only [gtb_cap_min]
    · rw [member_after_totals_max]
    · rw [member_after_totals_pct]
      simp only [gtb_cap_min, pct_eval _ _ hM]

/-- C1 (amended): on a results object with falsy `parse_error` and a
`rubric_breakdown` of finite criteria with positive maxima and distinct
nonempty keys, when `0 < rawMaxSum` and `rawMaxSum ≠ maxScore = M ≥ 0`,
the returned breakdown's `max_points` sum exactly to `M`, and they are
the spec's rounded rescales with the residual added at the LAST argmax
index (the `>=` comparison while scanning makes a later tie win — not
the first-seen criterion the claim describes). -/
theorem claim_C1_residual (rfs : List (String × JsVal)) (M : ℚ) (hM0 : 0 ≤ M)
    (studentName : JsVal) (pe : JsVal)
    (hpe : jsMember (JsVal.obj rfs) "parse_error" = Except.ok pe)
    (hpef : pe.truthy = false)
    (fs : List (String × JsVal))
    (hrb0 : jsMember (JsVal.obj rfs) "rubric_breakdown" =
      Except.ok (JsVal.obj fs))
    (hfs : fs ≠ []) (hnd : (fs.map Prod.fst).Nodup)
    (hne : ∀ kv ∈ fs, kv.1 ≠ "")
    (hfc : ∀ kv ∈ fs, ∃ gs q mq, kv.2 = JsVal.obj gs ∧ scoreQ kv.2 = some q ∧
      maxPointsQ kv.2 = some mq ∧ 0 < mq)
    (hSM : sumMaxQ fs ≠ M) (hSpos : 0 < sumMaxQ fs)
    (r : JsVal)
    (hr : validateAndClampResults (JsVal.obj rfs) (JNum.fin M) studentName =
      Except.ok r) :
    ∃ fs3, jsMember r "rubric_breakdown" = Except.ok (JsVal.obj fs3) ∧
      sumMaxQ fs3 = M ∧
      ∃ i, IsLastArgmax (rescaledMaxes (maxesOf fs) (sumMaxQ fs) M) i ∧
        maxesOf fs3 = modifyAt (rescaledMaxes (maxesOf fs) (sumMaxQ fs) M) i
          (fun x => x +
            (M - (rescaledMaxes (maxesOf fs) (sumMaxQ fs) M).sum)) := by
  unfold validateAndClampResults at hr
  rw [show (JsVal.obj rfs).truthy = true from rfl] at hr
  simp only [Bool.true_eq_false, if_false, hpe] at hr
  simp only [purEq, okBind, hpef, Bool.false_eq_true, if_false] at hr
  obtain ⟨sn, hsn, hr⟩ := bind_ok_inv hr
  have hres1 : ∃ rfs1,
      (if (decide (sn.truthy = false) || jsStrictEq sn (JsVal.str "Anonymous"))
          = true then
        jsSetField (JsVal.obj rfs) "student_name"
          (if studentName.truthy = true then studentName
            else JsVal.str "Anonymous")
      else JsVal.obj rfs) = JsVal.obj rfs1 ∧
      jsMember (JsVal.obj rfs1) "rubric_breakdown" =
        Except.ok (JsVal.obj fs) := by
    by_cases hc : (decide (sn.truthy = false) ||
        jsStrictEq sn (JsVal.str "Anonymous")) = true
    · rw [if_pos hc]
      refine ⟨_, rfl, ?_⟩
      have h4 : jsMember (JsVal.obj (JsVal.setFieldList rfs "student_name"
          (if studentName.truthy = true then studentName
            else JsVal.str "Anonymous"))) "rubric_breakdown" =
          jsMember (JsVal.obj rfs) "rubric_breakdown" :=
        member_set_other rfs "student_name" "rubric_breakdown" _ (by decide)
      rw [h4]
      exact hrb0
    · rw [if_neg hc]
      exact ⟨rfs, rfl, hrb0⟩
  obtain ⟨rfs1, hres1, hrb1⟩ := hres1
  rw [hres1] at hr
  obtain ⟨rb0, hrb0x, hr⟩ := bind_ok_inv hr
  rw [hrb1] at hrb0x
  injection hrb0x with hrb0x
  subst hrb0x
  rw [show (JsVal.obj fs).truthy = true from rfl] at hr
  simp only [Bool.true_eq_false, if_false] at hr
  obtain ⟨rawMaxSum, hraw, hr⟩ := bind_ok_inv hr
  have hfcm : ∀ kv ∈ fs, ∃ m, maxPointsQ kv.2 = some m := fun kv h => by
    obtain ⟨gs, q, mq, hgs, hq, hmq, -⟩ := hfc kv h
    exact ⟨mq, hmq⟩
  rw [show jsEntries (JsVal.obj fs) = fs from rfl,
    rawFold_char fs hfcm 0] at hraw
  injection hraw with hraw
  rw [zero_add] at hraw
  subst hraw
  have hcond : (JNum.neb (JNum.fin (sumMaxQ fs)) (JNum.fin M) &&
      JNum.gtb (JNum.fin (sumMaxQ fs)) (JNum.fin 0)) = true := by
    simp [JNum.neb, JNum.eqb, JNum.gtb, JNum.ltb, hSM, hSpos]
  simp only [hcond, if_true] at hr
  obtain ⟨rbR, hrbR, hr⟩ := bind_ok_inv hr
  obtain ⟨st, hst, hr⟩ := bind_ok_inv hr
  obtain ⟨rb1, hfix, hr⟩ := bind_ok_inv hr
  obtain ⟨rb2, hdet, hr⟩ := bind_ok_inv hr
  obtain ⟨fsB, hrb1eq, hfcB, hkeysB, hsumB, i, hlaI, hmaxBmod⟩ :=
    rescaleBranch_exact fs (sumMaxQ fs) M hSpos hM0 hfs hnd hne hfc
      rbR hrbR st hst rb1 hfix
  subst hrb1eq
  obtain ⟨fs2, hrb2eq, hrel2⟩ := detectPass_char fsB hfcB rb2 hdet
  subst hrb2eq
  obtain ⟨d, hclamp, hr⟩ := bind_ok_inv hr
  have hfc2 : ∀ kv ∈ fs2, FiniteCrit kv.2 := fun kv h => by
    obtain ⟨a, -, -, hfin, -⟩ := forall₂_mem_right hrel2 kv h
    exact hfin
  obtain ⟨fs3, hclampeq, hrel3⟩ := clampPass_char fs2 hfc2
  rw [hclampeq] at hclamp
  injection hclamp with hclamp
  subst hclamp
  injection hr with hr
  subst hr
  have hmax32 : maxesOf fs3 = maxesOf fs2 :=
    maxesOf_eq_of_forall₂ fs2 fs3
      (List.Forall₂.imp (fun a b h => clampRel_max a b h) hrel3)
  have hmax2B : maxesOf fs2 = maxesOf fsB :=
    maxesOf_eq_of_forall₂ fsB fs2
      (List.Forall₂.imp (fun a b h => h.2.2) hrel2)
  refine ⟨fs3, ?_, ?_, i, hlaI, ?_⟩
  · rw [member_after_totals]
  · rw [sumMaxQ_eq_sum_maxesOf, hmax32, hmax2B, ← sumMaxQ_eq_sum_maxesOf]
    exact hsumB
  · rw [hmax32, hmax2B]
    exact hmaxBmod

/-- C4 (counterexample): four criteria scoring 1/1 with `maxScore = 2`.
The rescale leaves each criterion at 1/1 except the last (residual -2
makes its max_points -1 and its score clamps to 0), the clamped scores
sum to 3, but the returned `total_score` is the cap 2 ≠ 3. -/
theorem claim_C4_counterexample :
    validateAndClampResults
        (JsVal.obj [("rubric_breakdown", JsVal.obj
          [("A", JsVal.obj [("score", JsVal.num (JNum.fin 1)),
                            ("max_points", JsVal.num (JNum.fin 1))]),
           ("B", JsVal.obj [("score", JsVal.num (JNum.fin 1)),
                            ("max_points", JsVal.num (JNum.fin 1))]),
           ("C", JsVal.obj [("score", JsVal.num (JNum.fin 1)),
                            ("max_points", JsVal.num (JNum.fin 1))]),
           ("D", JsVal.obj [("score", JsVal.num (JNum.fin 1)),
                            ("max_points", JsVal.num (JNum.fin 1))])])])
        (JNum.fin 2) (JsVal.str "") =
      Except.ok (JsVal.obj
        [("rubric_breakdown", JsVal.obj
          [("A", JsVal.obj [("score", JsVal.num (JNum.fin 1)),
                            ("max_points", JsVal.num (JNum.fin 1))]),
           ("B", JsVal.obj [("score", JsVal.num (JNum.fin 1)),
                            ("max_points", JsVal.num (JNum.fin 1))]),
           ("C", JsVal.obj [("score", JsVal.num (JNum.fin 1)),
                            ("max_points", JsVal.num (JNum.fin 1))]),
           ("D", JsVal.obj [("score", JsVal.num (JNum.fin 0)),
                            ("max_points", JsVal.num (JNum.fin (-1)))])]),
         ("student_name", JsVal.str "Anonymous"),
         ("total_score", JsVal.num (JNum.fin 2)),
         ("max_score", JsVal.num (JNum.fin 2)),
         ("percentage", JsVal.num (JNum.fin 100))]) ∧
    sumScoreQ
        [("A", JsVal.obj [("score", JsVal.num (JNum.fin 1)),
                          ("max_points", JsVal.num (JNum.fin 1))]),
         ("B", JsVal.obj [("score", JsVal.num (JNum.fin 1)),
                          ("max_points", JsVal.num (JNum.fin 1))]),
         ("C", JsVal.obj [("score", JsVal.num (JNum.fin 1)),
                          ("max_points", JsVal.num (JNum.fin 1))]),
         ("D", JsVal.obj [("score", JsVal.num (JNum.fin 0)),
                          ("max_points", JsVal.num (JNum.fin (-1)))])] = 3 ∧
    (2 : ℚ) ≠ 3 :=
  ⟨by with_unfolding_all rfl, by with_unfolding_all rfl, by norm_num⟩

/-- C4 witness: the amended totals equations evaluated on a concrete
3-of-10 criterion with `maxScore = 10`. -/
theorem claim_C4_witness :
    ∃ fs3, jsMember (JsVal.obj
        [("rubric_breakdown", JsVal.obj
          [("A", JsVal.obj [("score", JsVal.num (JNum.fin 3)),
                            ("max_points", JsVal.num (JNum.fin 10))])]),
         ("student_name", JsVal.str "Anonymous"),
         ("total_score", JsVal.num (JNum.fin 3)),
         ("max_score", JsVal.num (JNum.fin 10)),
         ("percentage", JsVal.num (JNum.fin 30))]) "rubric_breakdown" =
        Except.ok (JsVal.obj fs3) ∧
      (∀ kv ∈ fs3, FiniteCrit kv.2) ∧
      jsMember (JsVal.obj
        [("rubric_breakdown", JsVal.obj
          [("A", JsVal.obj [("score", JsVal.num (JNum.fin 3)),
                            ("max_points", JsVal.num (JNum.fin 10))])]),
         ("student_name", JsVal.str "Anonymous"),
         ("total_score", JsVal.num (JNum.fin 3)),
         ("max_score", JsVal.num (JNum.fin 10)),
         ("percentage", JsVal.num (JNum.fin 30))]) "total_score" =
        Except.ok (JsVal.num (JNum.fin (min (sumScoreQ fs3) 10))) ∧
      jsMember (JsVal.obj
        [("rubric_breakdown", JsVal.obj
          [("A", JsVal.obj [("score", JsVal.num (JNum.fin 3)),
                            ("max_points", JsVal.num (JNum.fin 10))])]),
         ("student_name", JsVal.str "Anonymous"),
         ("total_score", JsVal.num (JNum.fin 3)),
         ("max_score", JsVal.num (JNum.fin 10)),
         ("percentage", JsVal.num (JNum.fin 30))]) "max_score" =
        Except.ok (JsVal.num (JNum.fin 10)) ∧
      jsMember (JsVal.obj
        [("rubric_breakdown", JsVal.obj
          [("A", JsVal.obj [("score", JsVal.num (JNum.fin 3)),
                            ("max_points", JsVal.num (JNum.fin 10))])]),
         ("student_name", JsVal.str "Anonymous"),
         ("total_score", JsVal.num (JNum.fin 3)),
         ("max_score", JsVal.num (JNum.fin 10)),
         ("percentage", JsVal.num (JNum.fin 30))]) "percentage" =
        Except.ok (JsVal.num (JNum.fin
          (min (jroundQ (min (sumScoreQ fs3) 10 / 10 * 100)) 100))) ∧
      min (sumScoreQ fs3) 10 ≤ 10 ∧
      min (jroundQ (min (sumScoreQ fs3) 10 / 10 * 100)) 100 ≤ 100 :=
  claim_C4_totals
    [("rubric_breakdown", JsVal.obj
      [("A", JsVal.obj [("score", JsVal.num (JNum.fin 3)),
                        ("max_points", JsVal.num (JNum.fin 10))])])]
    10 (by norm_num) (JsVal.str "") JsVal.undef (by with_unfolding_all rfl) rfl
    [("A", JsVal.obj [("score", JsVal.num (JNum.fin 3)),
                      ("max_points", JsVal.num (JNum.fin 10))])]
    (by with_unfolding_all rfl)
    (by
      intro kv h
      rcases List.mem_singleton.mp h with rfl
      exact ⟨[("score", JsVal.num (JNum.fin 3)),
              ("max_points", JsVal.num (JNum.fin 10))], 3, 10, rfl,
        by with_unfolding_all rfl, by with_unfolding_all rfl, by norm_num⟩)
    (JsVal.obj
      [("rubric_breakdown", JsVal.obj
        [("A", JsVal.obj [("score", JsVal.num (JNum.fin 3)),
                          ("max_points", JsVal.num (JNum.fin 10))])]),
       ("student_name", JsVal.str "Anonymous"),
       ("total_score", JsVal.num (JNum.fin 3)),
       ("max_score", JsVal.num (JNum.fin 10)),
       ("percentage", JsVal.num (JNum.fin 30))])
    (by with_unfolding_all rfl)

/-- C1 (counterexample): two tied criteria 1/1 with `maxScore = 1`.
Both rescale to max 1 (sum 2, residual -1); the code gives the residual
to B — the LAST tie — leaving maxima [1, 0], while the claim's
first-seen-tie rule predicts [0, 1]. -/
theorem claim_C1_counterexample :
    validateAndClampResults
        (JsVal.obj [("rubric_breakdown", JsVal.obj
          [("A", JsVal.obj [("score", JsVal.num (JNum.fin 1)),
                            ("max_points", JsVal.num (JNum.fin 1))]),
           ("B", JsVal.obj [("score", JsVal.num (JNum.fin 1)),
                            ("max_points", JsVal.num (JNum.fin 1))])])])
        (JNum.fin 1) (JsVal.str "") =
      Except.ok (JsVal.obj
        [("rubric_breakdown", JsVal.obj
          [("A", JsVal.obj [("score", JsVal.num (JNum.fin 1)),
                            ("max_points", JsVal.num (JNum.fin 1))]),
           ("B", JsVal.obj [("score", JsVal.num (JNum.fin 0)),
                            ("max_points", JsVal.num (JNum.fin 0))])]),
         ("student_name", JsVal.str "Anonymous"),
         ("total_score", JsVal.num (JNum.fin 1)),
         ("max_score", JsVal.num (JNum.fin 1)),
         ("percentage", JsVal.num (JNum.fin 100))]) ∧
    maxesOf
        [("A", JsVal.obj [("score", JsVal.num (JNum.fin 1)),
                          ("max_points", JsVal.num (JNum.fin 1))]),
         ("B", JsVal.obj [("score", JsVal.num (JNum.fin 0)),
                          ("max_points", JsVal.num (JNum.fin 0))])] =
      [1, 0] ∧
    modifyAt (rescaledMaxes
        (maxesOf
          [("A", JsVal.obj [("score", JsVal.num (JNum.fin 1)),
                            ("max_points", JsVal.num (JNum.fin 1))]),
           ("B", JsVal.obj [("score", JsVal.num (JNum.fin 1)),
                            ("max_points", JsVal.num (JNum.fin 1))])])
        2 1) 0
      (fun x => x + (1 - (rescaledMaxes
        (maxesOf
          [("A", JsVal.obj [("score", JsVal.num (JNum.fin 1)),
                            ("max_points", JsVal.num (JNum.fin 1))]),
           ("B", JsVal.obj [("score", JsVal.num (JNum.fin 1)),
                            ("max_points", JsVal.num (JNum.fin 1))])])
        2 1).sum)) = [0, 1] ∧
    ([1, 0] : List ℚ) ≠ [0, 1] :=
  ⟨by with_unfolding_all rfl, by with_unfolding_all rfl,
   by with_unfolding_all rfl, by norm_num⟩

/-- C1 witness: the specification's own example — three criteria with
raw maxima 40/40/40 and `maxScore = 100` — rescales to 33/33/34 with the
+1 residual on the last tied criterion, summing to exactly 100. -/
theorem claim_C1_witness :
    ∃ fs3, jsMember (JsVal.obj
        [("rubric_breakdown", JsVal.obj
          [("Content", JsVal.obj [("score", JsVal.num (JNum.fin 33)),
                                  ("max_points", JsVal.num (JNum.fin 33))]),
           ("Analysis", JsVal.obj [("score", JsVal.num (JNum.fin 17)),
                                   ("max_points", JsVal.num (JNum.fin 33))]),
           ("Grammar", JsVal.obj [("score", JsVal.num (JNum.fin 8)),
                                  ("max_points", JsVal.num (JNum.fin 34))])]),
         ("student_name", JsVal.str "Anonymous"),
         ("total_score", JsVal.num (JNum.fin 58)),
         ("max_score", JsVal.num (JNum.fin 100)),
         ("percentage", JsVal.num (JNum.fin 58))]) "rubric_breakdown" =
        Except.ok (JsVal.obj fs3) ∧
      sumMaxQ fs3 = 100 ∧
      ∃ i, IsLastArgmax (rescaledMaxes (maxesOf
          [("Content", JsVal.obj [("score", JsVal.num (JNum.fin 40)),
                                  ("max_points", JsVal.num (JNum.fin 40))]),
           ("Analysis", JsVal.obj [("score", JsVal.num (JNum.fin 20)),
                                   ("max_points", JsVal.num (JNum.fin 40))]),
           ("Grammar", JsVal.obj [("score", JsVal.num (JNum.fin 10)),
                                  ("max_points", JsVal.num (JNum.fin 40))])])
          (sumMaxQ
          [("Content", JsVal.obj [("score", JsVal.num (JNum.fin 40)),
                                  ("max_points", JsVal.num (JNum.fin 40))]),
           ("Analysis", JsVal.obj [("score", JsVal.num (JNum.fin 20)),
                                   ("max_points", JsVal.num (JNum.fin 40))]),
           ("Grammar", JsVal.obj [("score", JsVal.num (JNum.fin 10)),
                                  ("max_points", JsVal.num (JNum.fin 40))])])
          100) i ∧
        maxesOf fs3 = modifyAt (rescaledMaxes (maxesOf
          [("Content", JsVal.obj [("score", JsVal.num (JNum.fin 40)),
                                  ("max_points", JsVal.num (JNum.fin 40))]),
           ("Analysis", JsVal.obj [("score", JsVal.num (JNum.fin 20)),
                                   ("max_points", JsVal.num (JNum.fin 40))]),
           ("Grammar", JsVal.obj [("score", JsVal.num (JNum.fin 10)),
                                  ("max_points", JsVal.num (JNum.fin 40))])])
          (sumMaxQ
          [("Content", JsVal.obj [("score", JsVal.num (JNum.fin 40)),
                                  ("max_points", JsVal.num (JNum.fin 40))]),
           ("Analysis", JsVal.obj [("score", JsVal.num (JNum.fin 20)),
                                   ("max_points", JsVal.num (JNum.fin 40))]),
           ("Grammar", JsVal.obj [("score", JsVal.num (JNum.fin 10)),
                                  ("max_points", JsVal.num (JNum.fin 40))])])
          100) i
          (fun x => x + (100 - (rescaledMaxes (maxesOf
          [("Content", JsVal.obj [("score", JsVal.num (JNum.fin 40)),
                                  ("max_points", JsVal.num (JNum.fin 40))]),
           ("Analysis", JsVal.obj [("score", JsVal.num (JNum.fin 20)),
                                   ("max_points", JsVal.num (JNum.fin 40))]),
           ("Grammar", JsVal.obj [("score", JsVal.num (JNum.fin 10)),
                                  ("max_points", JsVal.num (JNum.fin 40))])])
          (sumMaxQ
          [("Content", JsVal.obj [("score", JsVal.num (JNum.fin 40)),
                                  ("max_points", JsVal.num (JNum.fin 40))]),
           ("Analysis", JsVal.obj [("score", JsVal.num (JNum.fin 20)),
                                   ("max_points", JsVal.num (JNum.fin 40))]),
           ("Grammar", JsVal.obj [("score", JsVal.num (JNum.fin 10)),
                                  ("max_points", JsVal.num (JNum.fin 40))])])
          100).sum)) :=
  claim_C1_residual
    [("rubric_breakdown", JsVal.obj
      [("Content", JsVal.obj [("score", JsVal.num (JNum.fin 40)),
                              ("max_points", JsVal.num (JNum.fin 40))]),
       ("Analysis", JsVal.obj [("score", JsVal.num (JNum.fin 20)),
                               ("max_points", JsVal.num (JNum.fin 40))]),
       ("Grammar", JsVal.obj [("score", JsVal.num (JNum.fin 10)),
                              ("max_points", JsVal.num (JNum.fin 40))])])]
    100 (by norm_num) (JsVal.str "") JsVal.undef (by with_unfolding_all rfl) rfl
    [("Content", JsVal.obj [("score", JsVal.num (JNum.fin 40)),
                            ("max_points", JsVal.num (JNum.fin 40))]),
     ("Analysis", JsVal.obj [("score", JsVal.num (JNum.fin 20)),
                             ("max_points", JsVal.num (JNum.fin 40))]),
     ("Grammar", JsVal.obj [("score", JsVal.num (JNum.fin 10)),
                            ("max_points", JsVal.num (JNum.fin 40))])]
    (by with_unfolding_all rfl)
    (by simp)
    (by decide)
    (by
      intro kv h
      simp only [List.mem_cons, List.not_mem_nil, or_false] at h
      rcases h with rfl | rfl | rfl <;> decide)
    (by
      intro kv h
      simp only [List.mem_cons, List.not_mem_nil, or_false] at h
      rcases h with rfl | rfl | rfl
      · exact ⟨[("score", JsVal.num (JNum.fin 40)),
                ("max_points", JsVal.num (JNum.fin 40))], 40, 40, rfl,
          by with_unfolding_all rfl, by with_unfolding_all rfl, by norm_num⟩
      · exact ⟨[("score", JsVal.num (JNum.fin 20)),
                ("max_points", JsVal.num (JNum.fin 40))], 20, 40, rfl,
          by with_unfolding_all rfl, by with_unfolding_all rfl, by norm_num⟩
      · exact ⟨[("score", JsVal.num (JNum.fin 10)),
                ("max_points", JsVal.num (JNum.fin 40))], 10, 40, rfl,
          by with_unfolding_all rfl, by with_unfolding_all rfl, by norm_num⟩)
    (by
      rw [show sumMaxQ
        [("Content", JsVal.obj [("score", JsVal.num (JNum.fin 40)),
                                ("max_points", JsVal.num (JNum.fin 40))]),
         ("Analysis", JsVal.obj [("score", JsVal.num (JNum.fin 20)),
                                 ("max_points", JsVal.num (JNum.fin 40))]),
         ("Grammar", JsVal.obj [("score", JsVal.num (JNum.fin 10)),
                                ("max_points", JsVal.num (JNum.fin 40))])] =
        (120 : ℚ) from by with_unfolding_all rfl]
      norm_num)
    (by
      rw [show sumMaxQ
        [("Content", JsVal.obj [("score", JsVal.num (JNum.fin 40)),
                                ("max_points", JsVal.num (JNum.fin 40))]),
         ("Analysis", JsVal.obj [("score", JsVal.num (JNum.fin 20)),
                                 ("max_points", JsVal.num (JNum.fin 40))]),
         ("Grammar", JsVal.obj [("score", JsVal.num (JNum.fin 10)),
                                ("max_points", JsVal.num (JNum.fin 40))])] =
        (120 : ℚ) from by with_unfolding_all rfl]
      norm_num)
    (JsVal.obj
      [("rubric_breakdown", JsVal.obj
        [("Content", JsVal.obj [("score", JsVal.num (JNum.fin 33)),
                                ("max_points", JsVal.num (JNum.fin 33))]),
         ("Analysis", JsVal.obj [("score", JsVal.num (JNum.fin 17)),
                                 ("max_points", JsVal.num (JNum.fin 33))]),
         ("Grammar", JsVal.obj [("score", JsVal.num (JNum.fin 8)),
                                ("max_points", JsVal.num (JNum.fin 34))])]),
       ("student_name", JsVal.str "Anonymous"),
       ("total_score", JsVal.num (JNum.fin 58)),
       ("max_score", JsVal.num (JNum.fin 100)),
       ("percentage", JsVal.num (JNum.fin 58))])
    (by with_unfolding_all rfl)
